import Mathlib

/-! script-parser: transcript parsing and dialogue search

A shallow embedding of `script.go`, `scriptParser.go` and `stringHelpers.go`.

Modelling conventions.

* A Go `string` is modelled by `GoString`, its sequence of characters.  The functions of
  `stringHelpers.go` that count in bytes (`len`, `strings.Index`, slicing) are written over an
  arbitrary element type, so that they can be read over bytes as well; on ASCII text, as in all
  the examples below, bytes and characters coincide.
* A Go slice is a `List`; the `nil` slice is `[]`.  In `LoadTranscript` a `LineNumbers` slice is
  either `nil` or non-empty, so the test `== nil` is the test for the empty list.
* Go `int` is `Int` for line numbers (the counter starts at `-1`); offsets into strings, which
  are never negative, are `Nat`.
* A run-time panic (slice bounds, index out of range, a nil pointer, the explicit `panic`
  calls) is an error result.
* A `*regexp.Regexp` is an optional `Regexp`, absent for the nil pointer; a `Regexp` is
  represented by its `FindStringSubmatch`, of which `MatchString` is whether there is a match.
  The wildcard pattern of `CreateWildcardComparator` is represented by its
  `FindAllStringIndex`.
* The `io.Reader` given to `LoadTranscript` is represented by what `bufio.Scanner` delivers
  from it: the lines for which `Scan()` returned true and whether `Err()` is non-nil after the
  loop, as it is after a read error or a line too long for the scanner's buffer.
-/

namespace Scriptparser

/-! ## script.go: data model -/

/-- Go strings as sequences of characters. -/
abbrev GoString := List Char

/-- Source: `type Actor = string`. -/
abbrev Actor := GoString

/-- Source: `const NON_ACTOR = Actor("")`. -/
def NON_ACTOR : Actor := []

/-- Source: `type Line struct`, one Turn of the script. -/
structure Line where
  Speaker : GoString
  LineNumbers : List Int
  Dialogue : GoString
deriving DecidableEq, Repr

/-- Source: `type RawLine struct`. -/
structure RawLine where
  Actor : GoString
  Line : GoString
  LineNumbers : List Int
deriving DecidableEq, Repr

/-- The zero value `Line{}`. -/
def Line.zero : Line := ⟨[], [], []⟩

/-- The zero value `RawLine{}` (also the value of `var prevLine RawLine`). -/
def RawLine.zero : RawLine := ⟨[], [], []⟩

/-- Source: `type Script struct`.  The Go map is a partial function on keys: `none` is an
absent key. -/
structure Script where
  Actors : List Actor
  MapRepresentation : Actor → Option (List Line)
  ArrRepresentation : List Line

/-- Go map read `m[k]`: the zero value (the nil slice) for an absent key. -/
def mapGet (m : Actor → Option (List Line)) (k : Actor) : List Line :=
  (m k).getD []

/-- Go map write `m[k] = v`. -/
def mapSet (m : Actor → Option (List Line)) (k : Actor) (v : List Line) :
    Actor → Option (List Line) :=
  fun k2 => if k2 = k then some v else m k2

/-- The `Line` built from a raw record in the body of the loop of `NewScript`. -/
def lineOfRaw (rawDialogue : RawLine) : Line :=
  ⟨rawDialogue.Actor, rawDialogue.LineNumbers, rawDialogue.Line⟩

/-- One iteration of the loop of `NewScript`. -/
def NewScript.step (s : Script) (rawDialogue : RawLine) : Script :=
  let d := lineOfRaw rawDialogue
  let ok := (s.MapRepresentation rawDialogue.Actor).isSome
  let actors := if !ok then s.Actors ++ [rawDialogue.Actor] else s.Actors
  let arr := s.ArrRepresentation ++ [d]
  let actorLines := mapGet s.MapRepresentation rawDialogue.Actor
  ⟨actors, mapSet s.MapRepresentation rawDialogue.Actor (actorLines ++ [d]), arr⟩

/-- Source: `func NewScript(rawDialogues []RawLine) *Script`. -/
def NewScript (rawDialogues : List RawLine) : Script :=
  rawDialogues.foldl NewScript.step ⟨[], fun _ => none, []⟩

/-! ## script.go: simplifiers and search -/

/-- Source: `type StringSimplifier = func(string) string`. -/
abbrev StringSimplifier := GoString → GoString

/-- Source: `type StringComparator = func(string, string) bool`. -/
abbrev StringComparator := GoString → GoString → Bool

/-- Source: `type SearchFunction = func(string) (bool, Line)`; `none` is an index panic. -/
abbrev SearchFunction := GoString → Option (Bool × Line)

/-- Source: `func composeSimplifiers(simplifiers []StringSimplifier) StringSimplifier`, the
three cases of its `switch len(simplifiers)`. -/
def composeSimplifiers : List StringSimplifier → StringSimplifier
  | [] => fun s => s
  | [f] => fun s => f s
  | f :: g :: rest => fun s => f (composeSimplifiers (g :: rest) s)

/-- The Go builtin `copy(dst, src)`: the contents of `dst` afterwards.  It copies
`min(len(dst), len(src))` elements and never grows `dst`. -/
def goCopy {α : Type} (dst src : List α) : List α :=
  src.take dst.length ++ dst.drop src.length

/-- The loop of the closure returned by `CreateSearchFunction`, from index `i` on. -/
def searchFrom (comparator : StringComparator) (copiedDialogues : List Line)
    (target : GoString) : Nat → List GoString → Option (Bool × Line)
  | _, [] => some (false, Line.zero)
  | i, simpleDialogue :: rest =>
    if comparator simpleDialogue target then
      (copiedDialogues.get? i).map (fun l => (true, l))
    else searchFrom comparator copiedDialogues target (i + 1) rest

/-- Source: `func (s Script) CreateSearchFunction(comparator, simplifiers...)`.
`copiedDialogues` is declared as a nil slice and then filled with `copy`. -/
def CreateSearchFunction (s : Script) (comparator : StringComparator)
    (simplifiers : List StringSimplifier) : SearchFunction :=
  let simplifier := composeSimplifiers simplifiers
  let copiedDialogues := goCopy ([] : List Line) s.ArrRepresentation
  let simplifiedDialogues := copiedDialogues.map (fun dialogue => simplifier dialogue.Dialogue)
  fun target => searchFrom comparator copiedDialogues target 0 simplifiedDialogues

/-! ## stringHelpers.go -/

/-- Source: `func StringSimplifierSkipIfRune(skipIfTrue func(r rune) bool)`. -/
def StringSimplifierSkipIfRune (skipIfTrue : Char → Bool) : StringSimplifier :=
  fun s => s.filter (fun r => !skipIfTrue r)

/-- Source: `var StringComparatorExactSearch`. -/
def StringComparatorExactSearch : StringComparator :=
  fun s1 s2 => decide (s1 = s2)

/-- Source: `var StringSimplifierAlphabetOnly`, with the rune predicate as written there. -/
def StringSimplifierAlphabetOnly : StringSimplifier :=
  StringSimplifierSkipIfRune (fun r =>
    (decide (r ≥ 'a') && decide (r ≤ 'z')) || (decide (r ≥ 'A') && decide (r ≤ 'Z')))

/-- Source: `var StringSimplifierIgnoreCase = StringSimplifier(strings.ToUpper)`.
`strings.ToUpper` maps `unicode.ToUpper` over the runes of the string.  On the ASCII runes
that is `a`-`z` to `A`-`Z`, the rest fixed; `unicodeToUpper` is `unicode.ToUpper` on the
other runes. -/
def StringSimplifierIgnoreCase (unicodeToUpper : Char → Char) : StringSimplifier :=
  fun s => s.map (fun r => if r.toNat < 128 then r.toUpper else unicodeToUpper r)

/-- The run-time panics of the package that are modelled: an out-of-range slice expression,
the explicit `panic("This should not be reachable ...")` of the wildcard comparator, an
out-of-range index expression, a method call through a nil `*regexp.Regexp`, and the explicit
`panic` of `LoadTranscript` when `scanner.Err()` is not nil. -/
inductive Panic where
  | sliceBounds
  | unreachable
  | indexRange
  | nilPointer
  | scanFailed
deriving DecidableEq, Repr

deriving instance DecidableEq for Except

section codeUnits

variable {α : Type} [DecidableEq α]

/-- Go `strings.Index(s, substr)`: the offset of the leftmost occurrence of `substr` in `s`;
`none` stands for the result `-1`. -/
def stringsIndex (s substr : List α) : Option Nat :=
  match s with
  | [] => if substr.isEmpty then some 0 else none
  | c :: t =>
    if substr.isPrefixOf (c :: t) then some 0
    else (stringsIndex t substr).map (fun k => k + 1)

/-- Go `strings.Contains(s, substr)`, which is `strings.Index(s, substr) >= 0`. -/
def stringsContains (s substr : List α) : Bool :=
  (stringsIndex s substr).isSome

/-- Source: `var StringComparatorSubsetSearch = StringComparator(strings.Contains)`. -/
def StringComparatorSubsetSearch (s1 s2 : List α) : Bool :=
  stringsContains s1 s2

/-- Go slice expression `s[lo:hi]`. -/
def goSlice (s : List α) (lo hi : Nat) : Except Panic (List α) :=
  if lo ≤ hi ∧ hi ≤ s.length then Except.ok ((s.take hi).drop lo)
  else Except.error Panic.sliceBounds

/-- Go slice expression `s[lo:]`. -/
def goSliceFrom {β : Type} (s : List β) (lo : Nat) : Except Panic (List β) :=
  if lo ≤ s.length then Except.ok (s.drop lo) else Except.error Panic.sliceBounds

/-- First loop of the comparator of `CreateWildcardComparator`: every span `loc` of
`positions` with `loc[1]-loc[0] > 1` contributes the phrase `target[loc[0]:loc[1]]`. -/
def collectPhrases (target : List α) : List (Nat × Nat) → Except Panic (List (List α))
  | [] => Except.ok []
  | loc :: rest =>
    if (loc.2 : Int) - (loc.1 : Int) > 1 then
      match goSlice target loc.1 loc.2 with
      | Except.error e => Except.error e
      | Except.ok phrase =>
        match collectPhrases target rest with
        | Except.error e => Except.error e
        | Except.ok phrases => Except.ok (phrase :: phrases)
    else collectPhrases target rest

/-- Second loop of the comparator of `CreateWildcardComparator`, `for i, phrase := range
phrases`, followed by the final `panic`.  The test `i == len(phrases)-1` is the test that no
phrase is left after the current one. -/
def wildcardWalk : List (List α) → List α → Except Panic Bool
  | [], _ => Except.error Panic.unreachable
  | phrase :: rest, possibleLine =>
    match stringsIndex possibleLine phrase with
    | none => Except.ok false
    | some indexOfPhrase =>
      if rest.isEmpty then Except.ok true
      else if possibleLine.length ≤ phrase.length + indexOfPhrase then Except.ok false
      else
        match goSliceFrom possibleLine (indexOfPhrase + phrase.length + 1) with
        | Except.error e => Except.error e
        | Except.ok remaining => wildcardWalk rest remaining

/-- Source: `func CreateWildcardComparator(wildcard regexp.Regexp) StringComparator`.
`wildcard` is `wildcard.FindAllStringIndex(_, -1)`. -/
def CreateWildcardComparator (wildcard : List α → List (Nat × Nat))
    (possibleLine target : List α) : Except Panic Bool :=
  let positions := wildcard target
  if positions.length = 0 then Except.ok (StringComparatorSubsetSearch possibleLine target)
  else
    match collectPhrases target positions with
    | Except.error e => Except.error e
    | Except.ok phrases =>
      if phrases.length = 0 then Except.ok true
      else wildcardWalk phrases possibleLine

end codeUnits

/-- The spans which `FindAllStringIndex` reports for the pattern `\*+`: the maximal runs of
`*`, from left to right.  `i` is the current offset and `runStart` the start of the run that
is open, if any. -/
def starRunsAux : List Char → Nat → Option Nat → List (Nat × Nat)
  | [], i, some st => [(st, i)]
  | [], _, none => []
  | c :: t, i, none =>
    if c = '*' then starRunsAux t (i + 1) (some i) else starRunsAux t (i + 1) none
  | c :: t, i, some st =>
    if c = '*' then starRunsAux t (i + 1) (some st) else (st, i) :: starRunsAux t (i + 1) none

/-- `FindAllStringIndex` of the wildcard pattern `\*+`. -/
def starRuns (target : GoString) : List (Nat × Nat) :=
  starRunsAux target 0 none

/-! ## scriptParser.go -/

/-- A compiled regular expression, as its `FindStringSubmatch`: `none` (the nil slice) for a
text without a match, otherwise the text of the leftmost match followed by the texts of its
capture groups. -/
structure Regexp where
  FindStringSubmatch : GoString → Option (List GoString)

/-- `re.MatchString(s)`: whether `s` contains a match of `re`. -/
def Regexp.MatchString (re : Regexp) (s : GoString) : Bool :=
  (re.FindStringSubmatch s).isSome

/-- The call `re.MatchString(s)` through a pointer `re *regexp.Regexp`; the nil pointer
panics. -/
def ptrMatchString (re : Option Regexp) (s : GoString) : Except Panic Bool :=
  match re with
  | none => Except.error Panic.nilPointer
  | some r => Except.ok (r.MatchString s)

/-- The call `re.FindStringSubmatch(s)` through a pointer `re *regexp.Regexp`; the nil
pointer panics, and the nil slice of a text without a match is the empty list. -/
def ptrFindStringSubmatch (re : Option Regexp) (s : GoString) :
    Except Panic (List GoString) :=
  match re with
  | none => Except.error Panic.nilPointer
  | some r => Except.ok ((r.FindStringSubmatch s).getD [])

/-- Go index expression `xs[i]`. -/
def goIndex {β : Type} (xs : List β) (i : Nat) : Except Panic β :=
  match xs.get? i with
  | some x => Except.ok x
  | none => Except.error Panic.indexRange

/-- Source: `type ScriptParser struct`.  `actorDialoguePattern` is nil until
`CreateDialogueRegex` has stored a pattern. -/
structure ScriptParser where
  actorDialoguePattern : Option Regexp
  isMultiLineDialogue : Bool
  nonDialogueRegexp : List (Option Regexp)

/-- Source: `func createNewRawLineIfMatch`.  `submatches` is the variable `matches`. -/
def createNewRawLineIfMatch (actorDialoguePattern : Option Regexp) (line : GoString)
    (currentLineNumber : Int) : Except Panic (Bool × RawLine) :=
  match ptrMatchString actorDialoguePattern line with
  | Except.error e => Except.error e
  | Except.ok false => Except.ok (false, RawLine.zero)
  | Except.ok true =>
    match ptrFindStringSubmatch actorDialoguePattern line with
    | Except.error e => Except.error e
    | Except.ok submatches =>
      match goIndex submatches 1 with
      | Except.error e => Except.error e
      | Except.ok actor =>
        match goIndex submatches 2 with
        | Except.error e => Except.error e
        | Except.ok lines => Except.ok (true, ⟨actor, lines, [currentLineNumber]⟩)

/-- Source: `func isNonDialogue`. -/
def isNonDialogue : List (Option Regexp) → GoString → Except Panic Bool
  | [], _ => Except.ok false
  | skipRegexp :: rest, line =>
    match ptrMatchString skipRegexp line with
    | Except.error e => Except.error e
    | Except.ok true => Except.ok true
    | Except.ok false => isNonDialogue rest line

/-- The local variables of `LoadTranscript` that live across loop iterations. -/
structure LoadState where
  rawScript : List RawLine
  prevLine : RawLine
  currentLineNumber : Int
deriving DecidableEq, Repr

/-- The state of `LoadTranscript` before the loop. -/
def LoadState.init : LoadState := ⟨[], RawLine.zero, -1⟩

/-- The condition of the `else if` in the loop of `LoadTranscript`,
`prevLine.LineNumbers == nil || !s.isMultiLineDialogue || isNonDialogue(...)`; the call of
`isNonDialogue` is reached only when the two tests before it are false. -/
def LoadTranscript.startsUnattributed (s : ScriptParser) (st : LoadState) (line : GoString) :
    Except Panic Bool :=
  if st.prevLine.LineNumbers.isEmpty || !s.isMultiLineDialogue then Except.ok true
  else isNonDialogue s.nonDialogueRegexp line

/-- One iteration of the `for scanner.Scan()` loop of `LoadTranscript`. -/
def LoadTranscript.step (s : ScriptParser) (st : LoadState) (line : GoString) :
    Except Panic LoadState :=
  let currentLineNumber := st.currentLineNumber + 1
  match createNewRawLineIfMatch s.actorDialoguePattern line currentLineNumber with
  | Except.error e => Except.error e
  | Except.ok (true, newLine) =>
    Except.ok ⟨st.rawScript ++ [st.prevLine], newLine, currentLineNumber⟩
  | Except.ok (false, _) =>
    match LoadTranscript.startsUnattributed s st line with
    | Except.error e => Except.error e
    | Except.ok true =>
      Except.ok ⟨st.rawScript ++ [st.prevLine], ⟨NON_ACTOR, line, [currentLineNumber]⟩,
        currentLineNumber⟩
    | Except.ok false =>
      Except.ok ⟨st.rawScript,
        ⟨st.prevLine.Actor, st.prevLine.Line ++ ('\n' :: line),
          st.prevLine.LineNumbers ++ [currentLineNumber]⟩,
        currentLineNumber⟩

/-- The loop of `LoadTranscript` from the state `st` over the lines still to come. -/
def LoadTranscript.loopFrom (s : ScriptParser) : LoadState → List GoString →
    Except Panic LoadState
  | st, [] => Except.ok st
  | st, line :: rest =>
    match LoadTranscript.step s st line with
    | Except.error e => Except.error e
    | Except.ok next => LoadTranscript.loopFrom s next rest

/-- The state of `LoadTranscript` when the loop has consumed `lines`. -/
def LoadTranscript.loop (s : ScriptParser) (lines : List GoString) : Except Panic LoadState :=
  LoadTranscript.loopFrom s LoadState.init lines

/-- The statement after the loop, `rawScript = append(rawScript, prevLine)`. -/
def LoadState.records (st : LoadState) : List RawLine :=
  st.rawScript ++ [st.prevLine]

/-- What `bufio.NewScanner(reader)` delivers in `LoadTranscript`: `lines` are the texts
`scanner.Text()` of the calls of `scanner.Scan()` that returned true, in order, and `err` is
whether `scanner.Err()` is non-nil after the loop. -/
structure Scanned where
  lines : List GoString
  err : Bool
deriving DecidableEq, Repr

/-- The raw records of `LoadTranscript`: the loop, the final `append`, `rawScript[1:]`, and
the panic when `scanner.Err()` is not nil. -/
def LoadTranscript.rawLines (s : ScriptParser) (input : Scanned) :
    Except Panic (List RawLine) :=
  match LoadTranscript.loop s input.lines with
  | Except.error e => Except.error e
  | Except.ok st =>
    match goSliceFrom st.records 1 with
    | Except.error e => Except.error e
    | Except.ok rawScript =>
      if input.err then Except.error Panic.scanFailed else Except.ok rawScript

/-- Source: `func (s *ScriptParser) LoadTranscript(reader io.Reader) *Script`. -/
def LoadTranscript (s : ScriptParser) (input : Scanned) : Except Panic Script :=
  (LoadTranscript.rawLines s input).map NewScript

/-- The Turns emitted by `LoadTranscript`: the `ArrRepresentation` of its Script. -/
def LoadTranscript.turns (s : ScriptParser) (input : Scanned) :
    Except Panic (List Line) :=
  (LoadTranscript s input).map Script.ArrRepresentation

/-- The constant `bufio.MaxScanTokenSize`, the size of the largest buffer of a Scanner. -/
def MaxScanTokenSize : Nat := 64 * 1024

/-- The length of a string in bytes, `len(s)`: the sum of the UTF-8 sizes of its runes. -/
def byteLen (s : GoString) : Nat :=
  (s.map Char.utf8Size).sum

/-- The scan of a reader whose content is the given lines, each followed by a line break and
none ending in a carriage return: the Scanner delivers the lines in order until one does not
fit its buffer, which is a line of `MaxScanTokenSize` bytes or more, and then stops with the
error `bufio.ErrTooLong`. -/
def scanLines : List GoString → Scanned
  | [] => ⟨[], false⟩
  | line :: rest =>
    if MaxScanTokenSize ≤ byteLen line then ⟨[], true⟩
    else ⟨line :: (scanLines rest).lines, (scanLines rest).err⟩

/-- The texts of capture groups 1 and 2 of a match, `(matches[1], matches[2])`, for a line
in which a pattern with these groups matches. -/
abbrev DialoguePattern := GoString → Option (GoString × GoString)

/-- The capture groups 1 and 2 of `re` on a line: the pair of their texts when `re` matches
in the line and the match has both groups. -/
def Regexp.captures (re : Regexp) : DialoguePattern := fun line =>
  match re.FindStringSubmatch line with
  | none => none
  | some submatches =>
    match submatches.get? 1, submatches.get? 2 with
    | some actor, some text => some (actor, text)
    | _, _ => none

/-- The pattern has at least two capture groups: every match reports the texts of groups 1
and 2.  Every pattern that `CreateDialogueRegex` stores is of this kind. -/
def Regexp.hasTwoGroups (re : Regexp) : Prop :=
  ∀ line submatches, re.FindStringSubmatch line = some submatches → 2 < submatches.length

/-- The rune class `\w` of Go regular expressions: `[0-9A-Za-z_]`. -/
def isWordChar (c : Char) : Bool :=
  c.isAlphanum || c = '_'

/-- The capture groups of the pattern `^(?P<Actor>\w+): (?P<Line>.*)` on a line without a
line break. -/
def wordColonPattern : DialoguePattern := fun line =>
  let actor := line.takeWhile isWordChar
  match actor, line.dropWhile isWordChar with
  | _ :: _, ':' :: ' ' :: rest => some (actor, rest)
  | _, _ => none

/-- The start-of-turn pattern `^(?P<Actor>\w+): (?P<Line>.*)`, which `CreateDialogueRegex`
builds from the fragments `""`, `\w+` and `": "`, on a line without a line break: a match
extends over the whole line. -/
def wordColonRegexp : Regexp :=
  ⟨fun line => (wordColonPattern line).map (fun groups => [line, groups.1, groups.2])⟩

/-! ## Reference descriptions of the parser output, after sections 4.1 and 8 of the spec -/

/-- The non-dialogue pattern `^-- `, without capture groups. -/
def dashRegexp : Regexp :=
  ⟨fun line => if "-- ".toList.isPrefixOf line then some ["-- ".toList] else none⟩

/-- The line matches one of the non-dialogue patterns. -/
def matchesNonDialogue (skipRegexps : List (Option Regexp)) (line : GoString) : Bool :=
  skipRegexps.any (fun skipRegexp =>
    match skipRegexp with
    | some re => re.MatchString line
    | none => false)

/-- Rules 1 and 2 of the line classification: line `i` starts a new Turn when it matches the
start-of-turn pattern `re`, or `i = 0`, or multi-line turns are disabled, or it matches a
non-dialogue pattern. -/
def startsNewTurn (re : Regexp) (s : ScriptParser) (i : Nat) (line : GoString) : Bool :=
  re.MatchString line || decide (i = 0) || !s.isMultiLineDialogue
    || matchesNonDialogue s.nonDialogueRegexp line

/-- The Turn of one input line when every line is a Turn of its own: the captured speaker
and text for a line that matches the start-of-turn pattern, otherwise `NON_ACTOR` and the
line verbatim; in both cases the single line number `i`. -/
def singleLineTurn (pattern : DialoguePattern) (i : Nat) (line : GoString) : Line :=
  match pattern line with
  | some (speaker, text) => ⟨speaker, [(i : Int)], text⟩
  | none => ⟨NON_ACTOR, [(i : Int)], line⟩

/-- One Turn per line that matches the start-of-turn pattern, for the lines of an input from
index `idx` on: the captured speaker, the captured text followed by a line break and the line
for each following line up to the next matching line, and the line numbers of that range. -/
def turnsBySpec (pattern : DialoguePattern) : Nat → List GoString → List Line
  | _, [] => []
  | idx, line :: rest =>
    match pattern line with
    | none => turnsBySpec pattern (idx + 1) rest
    | some (speaker, text) =>
      let continuation := rest.takeWhile (fun l => (pattern l).isNone)
      ⟨speaker, (List.range' idx (continuation.length + 1)).map (fun k => (k : Int)),
        text ++ (continuation.map (fun l => '\n' :: l)).flatten⟩
        :: turnsBySpec pattern (idx + 1) rest

/-- A wildcard pattern's sequence of required phrases `phrases` occurs in `candidate` at the
offsets `positions`: every phrase lies inside the candidate at its offset, the first offset
is at least `lo`, and every next phrase starts at least one character after the end of the
previous one. -/
def occurInOrder {α : Type} [DecidableEq α] (candidate : List α) :
    Nat → List (List α) → List Nat → Bool
  | _, [], [] => true
  | lo, phrase :: phrases, q :: positions =>
    decide (lo ≤ q) && decide (q + phrase.length ≤ candidate.length)
      && phrase.isPrefixOf (candidate.drop q)
      && occurInOrder candidate (q + phrase.length + 1) phrases positions
  | _, _, _ => false

/-! ## scriptParser.go: configuration -/

/-- The panics of `CreateDialogueRegex`, each with the text it reports. -/
inductive ConfigPanic where
  | captureGroups (v : GoString)
  | inputDidNotCompile (v : GoString)
  | fullDidNotCompile (fullRegexp : GoString)
deriving DecidableEq, Repr

/-- The rest of a match of `\(\?P<.*>\)` after its first four characters: `>)` occurs in `v`
before any line break (`.` does not match a line break). -/
def closesGroupName : GoString → Bool
  | [] => false
  | c :: rest =>
    if c = '\n' then false
    else if c = '>' && rest.head? = some ')' then true
    else closesGroupName rest

/-- `capturingGroup.MatchString(v)` for `capturingGroup = regexp.MustCompile("\(\?P<.*>\)")`
of `CreateDialogueRegex`: somewhere in `v` the text `(?P<` is followed, on the same line, by
`>)`. -/
def capturingGroupMatch : GoString → Bool
  | [] => false
  | c :: rest =>
    ("(?P<".toList.isPrefixOf (c :: rest) && closesGroupName (rest.drop 3))
      || capturingGroupMatch rest

/-- The loop of `CreateDialogueRegex` over the three fragments.  `compiles v` is whether
`regexp.Compile(v)` returns no error. -/
def checkFragments (compiles : GoString → Bool) : List GoString → Except ConfigPanic Unit
  | [] => Except.ok ()
  | v :: rest =>
    if capturingGroupMatch v then Except.error (ConfigPanic.captureGroups v)
    else if !compiles v then Except.error (ConfigPanic.inputDidNotCompile v)
    else checkFragments compiles rest

/-- The text of `fullRegexp` in `CreateDialogueRegex`. -/
def fullRegexpOf (prefixRegexp actorRegexp postfixRegexp : GoString) : GoString :=
  "^".toList ++ prefixRegexp ++ "(?P<Actor>".toList ++ actorRegexp ++ ")".toList
    ++ postfixRegexp ++ "(?P<Line>.*)".toList

/-- Source: `func (s *ScriptParser) CreateDialogueRegex(prefixRegexp, actorRegexp,
postfixRegexp string, isMultiLineDialogue bool)`: the parser afterwards, or the panic.
`regexpCompile` is `regexp.Compile`: `none` for an error, otherwise the compiled pattern. -/
def CreateDialogueRegex (regexpCompile : GoString → Option Regexp)
    (s : ScriptParser) (prefixRegexp actorRegexp postfixRegexp : GoString)
    (isMultiLineDialogue : Bool) : Except ConfigPanic ScriptParser :=
  match checkFragments (fun v => (regexpCompile v).isSome)
      [prefixRegexp, actorRegexp, postfixRegexp] with
  | Except.error e => Except.error e
  | Except.ok _ =>
    match regexpCompile (fullRegexpOf prefixRegexp actorRegexp postfixRegexp) with
    | none =>
      Except.error
        (ConfigPanic.fullDidNotCompile (fullRegexpOf prefixRegexp actorRegexp postfixRegexp))
    | some fullRegexp =>
      Except.ok ⟨some fullRegexp, isMultiLineDialogue, s.nonDialogueRegexp⟩

end Scriptparser

namespace Scriptparser

/-! ## Simplifier composition and search -/

theorem composeSimplifiers_cons (f : StringSimplifier) (rest : List StringSimplifier)
    (x : GoString) : composeSimplifiers (f :: rest) x = f (composeSimplifiers rest x) := by
  cases rest <;> rfl

/-- C10: `composeSimplifiers [f1, ..., fn] x` is `f1 (f2 (... (fn x)))`, the last function
applied first, and composing the empty list gives the identity function. -/
theorem composeSimplifiers_right_to_left :
    (∀ (simplifiers : List StringSimplifier) (x : GoString),
      composeSimplifiers simplifiers x = simplifiers.foldr (fun f acc => f acc) x) ∧
    composeSimplifiers [] = (fun x => x) := by
  refine ⟨?_, rfl⟩
  intro simplifiers x
  induction simplifiers with
  | nil => rfl
  | cons f rest ih => rw [composeSimplifiers_cons, ih, List.foldr_cons]

/-- C3: on `"Hi, Bob!"` the composition of `[StringSimplifierIgnoreCase,
StringSimplifierAlphabetOnly]` yields `", !"`, not `"HIBOB"`: `StringSimplifierAlphabetOnly`
drops the letters and keeps the other characters. -/
theorem compose_ignoreCase_alphabetOnly_hi_bob :
    StringSimplifierAlphabetOnly "Hi, Bob!".toList = ", !".toList ∧
    (∀ unicodeToUpper : Char → Char,
      composeSimplifiers [StringSimplifierIgnoreCase unicodeToUpper,
        StringSimplifierAlphabetOnly] "Hi, Bob!".toList = ", !".toList) ∧
    (∀ unicodeToUpper : Char → Char,
      composeSimplifiers [StringSimplifierIgnoreCase unicodeToUpper,
        StringSimplifierAlphabetOnly] "Hi, Bob!".toList ≠ "HIBOB".toList) := by
  have h : ∀ unicodeToUpper : Char → Char,
      composeSimplifiers [StringSimplifierIgnoreCase unicodeToUpper,
        StringSimplifierAlphabetOnly] "Hi, Bob!".toList = ", !".toList := fun _ => rfl
  refine ⟨by decide, h, fun u => ?_⟩
  rw [h u]
  decide

theorem goCopy_nil {α : Type} (src : List α) : goCopy ([] : List α) src = [] := by
  simp [goCopy]

/-- The closure built by `CreateSearchFunction` never finds anything: its snapshot is empty,
because `copy` into the nil slice `copiedDialogues` copies no element. -/
theorem CreateSearchFunction_not_found (s : Script) (comparator : StringComparator)
    (simplifiers : List StringSimplifier) (target : GoString) :
    CreateSearchFunction s comparator simplifiers target = some (false, Line.zero) := by
  simp [CreateSearchFunction, goCopy_nil, searchFrom]

/-- C1: for the Script of the single record `(ALICE, "hi")`, the exact comparator and no
simplifier, the only Turn satisfies the comparator against the query `"hi"`, and the search
function nevertheless returns `(false, Line{})`. -/
theorem CreateSearchFunction_misses_match :
    (NewScript [⟨"ALICE".toList, "hi".toList, [0]⟩]).ArrRepresentation =
      [⟨"ALICE".toList, [0], "hi".toList⟩] ∧
    StringComparatorExactSearch (composeSimplifiers [] "hi".toList) "hi".toList = true ∧
    CreateSearchFunction (NewScript [⟨"ALICE".toList, "hi".toList, [0]⟩])
      StringComparatorExactSearch [] "hi".toList = some (false, Line.zero) := by
  decide

/-! ## Wildcard comparator -/

/-- C2: with the wildcard pattern `\*+` and the target `"hello * world"` the only wildcard
span is `[6, 7)`, of length 1, so no phrase is collected and the comparator returns true for
the candidate `"world hello"`, as for `"hello big wide world indeed"` and for every other
candidate. -/
theorem wildcard_hello_world_order_ignored :
    starRuns "hello * world".toList = [(6, 7)] ∧
    collectPhrases "hello * world".toList (starRuns "hello * world".toList) = Except.ok [] ∧
    CreateWildcardComparator starRuns "hello big wide world indeed".toList
      "hello * world".toList = Except.ok true ∧
    CreateWildcardComparator starRuns "world hello".toList "hello * world".toList
      = Except.ok true ∧
    ∀ candidate : GoString,
      CreateWildcardComparator starRuns candidate "hello * world".toList = Except.ok true := by
  have hpos : starRuns "hello * world".toList = [(6, 7)] := by decide
  refine ⟨hpos, by decide, by decide, by decide, ?_⟩
  intro candidate
  simp only [CreateWildcardComparator, hpos]
  rfl

/-! ## NewScript -/

theorem NewScript_append (rs : List RawLine) (r : RawLine) :
    NewScript (rs ++ [r]) = NewScript.step (NewScript rs) r := by
  simp [NewScript, List.foldl_append]

theorem NewScript_arr (rs : List RawLine) :
    (NewScript rs).ArrRepresentation = rs.map lineOfRaw := by
  induction rs using List.reverseRecOn with
  | nil => rfl
  | append_singleton rs r ih => rw [NewScript_append]; simp [NewScript.step, ih]

theorem NewScript_map (rs : List RawLine) (k : Actor) :
    (NewScript rs).MapRepresentation k =
      if k ∈ rs.map RawLine.Actor then
        some ((rs.map lineOfRaw).filter (fun t => decide (t.Speaker = k)))
      else none := by
  induction rs using List.reverseRecOn with
  | nil => rfl
  | append_singleton rs r ih =>
    rw [NewScript_append]
    simp only [NewScript.step, mapSet, mapGet]
    by_cases hk : k = r.Actor
    · subst hk
      rw [ih]
      by_cases hm : r.Actor ∈ rs.map RawLine.Actor
      · simp [hm, List.filter_append, lineOfRaw]
      · simp [hm, List.filter_append, lineOfRaw]
        intro a ha h
        exact hm (List.mem_map.2 ⟨a, ha, h⟩)
    · have hk2 : ¬ r.Actor = k := fun h => hk h.symm
      rw [if_neg hk, ih]
      simp [List.filter_append, lineOfRaw, hk2, hk]

/-- C8: in the Script built by `NewScript`, `ArrRepresentation` holds one Turn per raw record
in input order, and for every speaker `sp` the map entry `MapRepresentation[sp]` is the
subsequence of `ArrRepresentation` of the Turns whose `Speaker` is `sp`. -/
theorem NewScript_representations (rawDialogues : List RawLine) :
    (NewScript rawDialogues).ArrRepresentation =
      rawDialogues.map (fun r => (⟨r.Actor, r.LineNumbers, r.Line⟩ : Line)) ∧
    ∀ sp : Actor, mapGet (NewScript rawDialogues).MapRepresentation sp =
      (NewScript rawDialogues).ArrRepresentation.filter (fun t => decide (t.Speaker = sp)) := by
  refine ⟨NewScript_arr rawDialogues, ?_⟩
  intro sp
  rw [mapGet, NewScript_map, NewScript_arr]
  by_cases hm : sp ∈ rawDialogues.map RawLine.Actor
  · simp [hm]
  · rw [if_neg hm]
    simp only [Option.getD_none]
    symm
    rw [List.filter_eq_nil_iff]
    intro t ht
    obtain ⟨r, hr, rfl⟩ := List.mem_map.1 ht
    simp only [lineOfRaw, decide_eq_true_eq]
    intro h
    exact hm (List.mem_map.2 ⟨r, hr, h⟩)

theorem NewScript_speakers (rs : List RawLine) :
    (NewScript rs).ArrRepresentation.map Line.Speaker = rs.map RawLine.Actor := by
  rw [NewScript_arr, List.map_map]
  rfl

theorem NewScript_actors_append (rs : List RawLine) (r : RawLine) :
    (NewScript (rs ++ [r])).Actors =
      if r.Actor ∈ rs.map RawLine.Actor then (NewScript rs).Actors
      else (NewScript rs).Actors ++ [r.Actor] := by
  rw [NewScript_append]
  simp only [NewScript.step, NewScript_map]
  by_cases hm : r.Actor ∈ rs.map RawLine.Actor
  · simp [hm]
  · simp [hm]

theorem NewScript_mem_actors (rs : List RawLine) (a : Actor) :
    a ∈ (NewScript rs).Actors ↔ a ∈ rs.map RawLine.Actor := by
  induction rs using List.reverseRecOn with
  | nil => simp [NewScript]
  | append_singleton rs r ih =>
    rw [NewScript_actors_append]
    by_cases hm : r.Actor ∈ rs.map RawLine.Actor
    · rw [if_pos hm, ih]
      simp only [List.map_append, List.mem_append, List.map_cons, List.map_nil,
        List.mem_singleton]
      constructor
      · exact fun h => Or.inl h
      · rintro (h | h)
        · exact h
        · rw [h]; exact hm
    · rw [if_neg hm]
      simp only [List.map_append, List.mem_append, List.map_cons, List.map_nil,
        List.mem_singleton, ih]

theorem NewScript_actors_nodup (rs : List RawLine) : (NewScript rs).Actors.Nodup := by
  induction rs using List.reverseRecOn with
  | nil => simp [NewScript]
  | append_singleton rs r ih =>
    rw [NewScript_actors_append]
    by_cases hm : r.Actor ∈ rs.map RawLine.Actor
    · rw [if_pos hm]; exact ih
    · rw [if_neg hm]
      refine List.Nodup.append ih (List.nodup_singleton _) ?_
      intro a ha hb
      rw [List.mem_singleton] at hb
      subst hb
      exact hm ((NewScript_mem_actors rs _).1 ha)

theorem NewScript_firstIdx_append (rs : List RawLine) (r : RawLine) (a : Actor)
    (h : a ∈ rs.map RawLine.Actor) :
    (NewScript (rs ++ [r])).ArrRepresentation.findIdx (fun t => decide (t.Speaker = a)) =
      (NewScript rs).ArrRepresentation.findIdx (fun t => decide (t.Speaker = a)) := by
  have hlt : (NewScript rs).ArrRepresentation.findIdx (fun t => decide (t.Speaker = a)) <
      (NewScript rs).ArrRepresentation.length := by
    apply List.findIdx_lt_length_of_exists
    obtain ⟨x, hx, hxa⟩ := List.mem_map.1 h
    refine ⟨lineOfRaw x, ?_, ?_⟩
    · rw [NewScript_arr]; exact List.mem_map.2 ⟨x, hx, rfl⟩
    · simpa [lineOfRaw] using hxa
  rw [NewScript_append]
  simp only [NewScript.step]
  rw [List.findIdx_append, if_pos hlt]

theorem NewScript_firstIdx_new (rs : List RawLine) (r : RawLine)
    (h : r.Actor ∉ rs.map RawLine.Actor) :
    (NewScript (rs ++ [r])).ArrRepresentation.findIdx
      (fun t => decide (t.Speaker = r.Actor)) = (NewScript rs).ArrRepresentation.length := by
  have hall : ∀ t ∈ (NewScript rs).ArrRepresentation,
      (fun t : Line => decide (t.Speaker = r.Actor)) t = false := by
    intro t ht
    rw [NewScript_arr] at ht
    obtain ⟨x, hx, rfl⟩ := List.mem_map.1 ht
    simp only [lineOfRaw, decide_eq_false_iff_not]
    intro hxa
    exact h (List.mem_map.2 ⟨x, hx, hxa⟩)
  rw [NewScript_append]
  simp only [NewScript.step]
  rw [List.findIdx_append, List.findIdx_eq_length_of_false hall, if_neg (Nat.lt_irrefl _)]
  simp [List.findIdx_cons, lineOfRaw]

theorem NewScript_actors_order (rs : List RawLine) :
    ((NewScript rs).Actors.map (fun a =>
      (NewScript rs).ArrRepresentation.findIdx (fun t => decide (t.Speaker = a)))).Pairwise
        (fun i j => i < j) := by
  induction rs using List.reverseRecOn with
  | nil => simp [NewScript]
  | append_singleton rs r ih =>
    have hall : ∀ a ∈ (NewScript rs).Actors, a ∈ rs.map RawLine.Actor :=
      fun a ha => (NewScript_mem_actors rs a).1 ha
    have hold : (NewScript rs).Actors.map (fun a =>
        (NewScript (rs ++ [r])).ArrRepresentation.findIdx (fun t => decide (t.Speaker = a))) =
        (NewScript rs).Actors.map (fun a =>
          (NewScript rs).ArrRepresentation.findIdx (fun t => decide (t.Speaker = a))) := by
      apply List.map_congr_left
      intro a ha
      exact NewScript_firstIdx_append rs r a (hall a ha)
    rw [NewScript_actors_append]
    by_cases hm : r.Actor ∈ rs.map RawLine.Actor
    · rw [if_pos hm, hold]; exact ih
    · rw [if_neg hm, List.map_append, hold, List.pairwise_append]
      refine ⟨ih, by simp, ?_⟩
      intro i hi j hj
      obtain ⟨a, ha, rfl⟩ := List.mem_map.1 hi
      simp only [List.map_cons, List.map_nil, List.mem_singleton] at hj
      rw [hj, NewScript_firstIdx_new rs r hm]
      apply List.findIdx_lt_length_of_exists
      obtain ⟨x, hx, hxa⟩ := List.mem_map.1 (hall a ha)
      refine ⟨lineOfRaw x, ?_, ?_⟩
      · rw [NewScript_arr]; exact List.mem_map.2 ⟨x, hx, rfl⟩
      · simpa [lineOfRaw] using hxa

/-- C9: the `Actors` list built by `NewScript` has no duplicates, contains exactly the
speakers that occur in `ArrRepresentation`, and lists them by increasing index of their first
Turn in `ArrRepresentation`. -/
theorem NewScript_actors_first_occurrence (rawDialogues : List RawLine) :
    (NewScript rawDialogues).Actors.Nodup ∧
    (∀ a : Actor, a ∈ (NewScript rawDialogues).Actors ↔
      ∃ t ∈ (NewScript rawDialogues).ArrRepresentation, t.Speaker = a) ∧
    ((NewScript rawDialogues).Actors.map (fun a =>
      (NewScript rawDialogues).ArrRepresentation.findIdx
        (fun t => decide (t.Speaker = a)))).Pairwise (fun i j => i < j) := by
  refine ⟨NewScript_actors_nodup rawDialogues, ?_, NewScript_actors_order rawDialogues⟩
  intro a
  rw [NewScript_mem_actors, ← NewScript_speakers, List.mem_map]

/-! ## Comparators and simplifiers of stringHelpers.go -/

/-- C11: `StringSimplifierAlphabetOnly` removes the ASCII letters and keeps every other
character: `"abc123"` becomes `"123"` (not `"abc"`), and in general the result is the input
filtered by "is not a letter". -/
theorem StringSimplifierAlphabetOnly_drops_letters :
    StringSimplifierAlphabetOnly "abc123".toList = "123".toList ∧
    StringSimplifierAlphabetOnly "abc123".toList ≠ "abc".toList ∧
    ∀ s : GoString, StringSimplifierAlphabetOnly s =
      s.filter (fun r => !((decide (r ≥ 'a') && decide (r ≤ 'z'))
        || (decide (r ≥ 'A') && decide (r ≤ 'Z')))) := by
  refine ⟨by decide, by decide, fun s => rfl⟩

/-- C12: with the wildcard pattern `\*+` the target `"**"` consists of one wildcard span,
`[0, 2)`; the span is longer than 1, so it is collected as the phrase `"**"`, and the
comparator returns false for the candidate `"hello"`. -/
theorem wildcard_only_target_rejects :
    starRuns "**".toList = [(0, 2)] ∧
    collectPhrases "**".toList (starRuns "**".toList) = Except.ok ["**".toList] ∧
    CreateWildcardComparator starRuns "hello".toList "**".toList = Except.ok false := by
  decide

/-- C14: `StringComparatorExactSearch s1 s2` is true exactly when `s1 = s2`; so it is false
for the empty dialogue against a non-empty query and true for equal strings, the empty
string included. -/
theorem StringComparatorExactSearch_iff :
    (∀ s1 s2 : GoString, StringComparatorExactSearch s1 s2 = true ↔ s1 = s2) ∧
    (∀ query : GoString, query ≠ [] → StringComparatorExactSearch [] query = false) ∧
    (∀ s : GoString, StringComparatorExactSearch s s = true) ∧
    StringComparatorExactSearch [] [] = true := by
  refine ⟨fun s1 s2 => by simp [StringComparatorExactSearch], ?_, ?_, by decide⟩
  · intro query hq
    simp [StringComparatorExactSearch, Ne.symm hq]
  · intro s
    simp [StringComparatorExactSearch]

/-! ## CreateDialogueRegex -/

/-- The capture-group test of `CreateDialogueRegex` accepts the named group `(?P<X>\w+)` and
the unnamed group `(\w+)`; it rejects a group whose name is directly followed by `)`. -/
theorem capturingGroupMatch_examples :
    capturingGroupMatch "(?P<X>\\w+)".toList = false ∧
    capturingGroupMatch "(\\w+)".toList = false ∧
    capturingGroupMatch "(?P<X>)".toList = true := by
  decide

/-- C15: for the fragments `""`, `(?P<X>\w+)` and `": "`, which `regexp.Compile` accepts
each on its own and in the full pattern `^(?P<Actor>(?P<X>\w+)): (?P<Line>.*)`,
`CreateDialogueRegex` does not panic: the capture-group test does not match the actor
fragment, and the compiled full pattern is stored in the parser. -/
theorem CreateDialogueRegex_stores_capture_group
    (regexpCompile : GoString → Option Regexp) (s : ScriptParser)
    (isMultiLineDialogue : Bool) (fullRegexp : Regexp)
    (h1 : (regexpCompile "".toList).isSome = true)
    (h2 : (regexpCompile "(?P<X>\\w+)".toList).isSome = true)
    (h3 : (regexpCompile ": ".toList).isSome = true)
    (h4 : regexpCompile "^(?P<Actor>(?P<X>\\w+)): (?P<Line>.*)".toList = some fullRegexp) :
    capturingGroupMatch "(?P<X>\\w+)".toList = false ∧
    CreateDialogueRegex regexpCompile s "".toList "(?P<X>\\w+)".toList ": ".toList
      isMultiLineDialogue =
        Except.ok ⟨some fullRegexp, isMultiLineDialogue, s.nonDialogueRegexp⟩ := by
  have hc1 : capturingGroupMatch "".toList = false := by decide
  have hc2 : capturingGroupMatch "(?P<X>\\w+)".toList = false := by decide
  have hc3 : capturingGroupMatch ": ".toList = false := by decide
  have hfull : fullRegexpOf "".toList "(?P<X>\\w+)".toList ": ".toList =
      "^(?P<Actor>(?P<X>\\w+)): (?P<Line>.*)".toList := by decide
  refine ⟨hc2, ?_⟩
  have hfrag : checkFragments (fun v => (regexpCompile v).isSome)
      ["".toList, "(?P<X>\\w+)".toList, ": ".toList] = Except.ok () := by
    simp only [checkFragments, hc1, hc2, hc3, h1, h2, h3]
    rfl
  simp only [CreateDialogueRegex, hfrag, hfull, h4]

/-- C15, an instance: a `regexp.Compile` that accepts the four patterns, and the parser that
`CreateDialogueRegex` returns with it. -/
theorem CreateDialogueRegex_stores_capture_group_witness :
    CreateDialogueRegex (fun _ => some wordColonRegexp) ⟨none, false, []⟩
      "".toList "(?P<X>\\w+)".toList ": ".toList true =
        Except.ok ⟨some wordColonRegexp, true, []⟩ :=
  (CreateDialogueRegex_stores_capture_group (fun _ => some wordColonRegexp)
    ⟨none, false, []⟩ true wordColonRegexp rfl rfl rfl rfl).2

/-! ## The walk of the wildcard comparator -/

section codeUnitLemmas

variable {α : Type} [DecidableEq α]

theorem stringsIndex_nil (sub : List α) :
    stringsIndex [] sub = if sub.isEmpty then some 0 else none := by
  rw [stringsIndex]

theorem stringsIndex_cons (c : α) (t sub : List α) :
    stringsIndex (c :: t) sub =
      if sub.isPrefixOf (c :: t) then some 0
      else (stringsIndex t sub).map (fun k => k + 1) := by
  rw [stringsIndex]

/-- The result of `strings.Index` is an occurrence of the substring. -/
theorem stringsIndex_some (sub : List α) :
    ∀ (s : List α) (i : Nat), stringsIndex s sub = some i →
      i + sub.length ≤ s.length ∧ sub.isPrefixOf (s.drop i) = true := by
  intro s
  induction s with
  | nil =>
    intro i h
    rw [stringsIndex_nil] at h
    by_cases he : sub.isEmpty = true
    · rw [if_pos he] at h
      have hs : sub = [] := List.isEmpty_iff.1 he
      cases h
      subst hs
      simp
    · rw [if_neg he] at h
      cases h
  | cons c t ih =>
    intro i h
    rw [stringsIndex_cons] at h
    by_cases hp : sub.isPrefixOf (c :: t) = true
    · rw [if_pos hp] at h
      cases h
      refine ⟨?_, by simpa using hp⟩
      have := (List.isPrefixOf_iff_prefix.1 hp).length_le
      simpa using this
    · rw [if_neg hp] at h
      cases hk : stringsIndex t sub with
      | none => rw [hk] at h; cases h
      | some k =>
        rw [hk] at h
        cases h
        obtain ⟨h1, h2⟩ := ih k hk
        refine ⟨?_, by simpa using h2⟩
        simp only [List.length_cons]
        omega

/-- The result of `strings.Index` is the leftmost occurrence. -/
theorem stringsIndex_le (sub : List α) :
    ∀ (s : List α) (i j : Nat), stringsIndex s sub = some i →
      sub.isPrefixOf (s.drop j) = true → i ≤ j := by
  intro s
  induction s with
  | nil =>
    intro i j h _
    rw [stringsIndex_nil] at h
    by_cases he : sub.isEmpty = true
    · rw [if_pos he] at h; cases h; exact Nat.zero_le _
    · rw [if_neg he] at h; cases h
  | cons c t ih =>
    intro i j h hj
    rw [stringsIndex_cons] at h
    by_cases hp : sub.isPrefixOf (c :: t) = true
    · rw [if_pos hp] at h; cases h; exact Nat.zero_le _
    · rw [if_neg hp] at h
      cases hk : stringsIndex t sub with
      | none => rw [hk] at h; cases h
      | some k =>
        rw [hk] at h
        cases h
        cases j with
        | zero => exact absurd hj hp
        | succ j2 =>
          exact Nat.succ_le_succ (ih k j2 hk (by simpa using hj))

/-- When `strings.Index` reports `-1` the substring occurs at no offset. -/
theorem stringsIndex_none (sub : List α) :
    ∀ (s : List α) (j : Nat), stringsIndex s sub = none → j + sub.length ≤ s.length →
      sub.isPrefixOf (s.drop j) = false := by
  intro s
  induction s with
  | nil =>
    intro j h hj
    rw [stringsIndex_nil] at h
    by_cases he : sub.isEmpty = true
    · rw [if_pos he] at h; cases h
    · cases sub with
      | nil => simp at he
      | cons a l => simp at hj
  | cons c t ih =>
    intro j h hj
    rw [stringsIndex_cons] at h
    by_cases hp : sub.isPrefixOf (c :: t) = true
    · rw [if_pos hp] at h; cases h
    · rw [if_neg hp] at h
      cases hk : stringsIndex t sub with
      | some k => rw [hk] at h; cases h
      | none =>
        cases j with
        | zero => rw [List.drop_zero]; exact Bool.eq_false_iff.2 hp
        | succ j2 =>
          have := ih j2 hk (by simp only [List.length_cons] at hj; omega)
          simpa using this

theorem walk_not_found (phrase : List α) (rest : List (List α)) (possibleLine : List α)
    (h : stringsIndex possibleLine phrase = none) :
    wildcardWalk (phrase :: rest) possibleLine = Except.ok false := by
  rw [wildcardWalk, h]

theorem walk_last (phrase possibleLine : List α) (i : Nat)
    (h : stringsIndex possibleLine phrase = some i) :
    wildcardWalk [phrase] possibleLine = Except.ok true := by
  rw [wildcardWalk, h]
  rfl

theorem walk_no_room (phrase next : List α) (rest : List (List α)) (possibleLine : List α)
    (i : Nat) (h : stringsIndex possibleLine phrase = some i)
    (hlen : possibleLine.length ≤ phrase.length + i) :
    wildcardWalk (phrase :: next :: rest) possibleLine = Except.ok false := by
  rw [wildcardWalk, h]
  simp [hlen]

theorem walk_advance (phrase next : List α) (rest : List (List α)) (possibleLine : List α)
    (i : Nat) (h : stringsIndex possibleLine phrase = some i)
    (hlen : ¬ possibleLine.length ≤ phrase.length + i) :
    wildcardWalk (phrase :: next :: rest) possibleLine =
      wildcardWalk (next :: rest) (possibleLine.drop (i + phrase.length + 1)) := by
  have hslice : goSliceFrom possibleLine (i + phrase.length + 1) =
      Except.ok (possibleLine.drop (i + phrase.length + 1)) := by
    rw [goSliceFrom, if_pos (by omega)]
  rw [wildcardWalk, h]
  simp only [List.isEmpty_cons, Bool.false_eq_true, if_false, if_neg hlen, hslice]

/-- The walk over a non-empty phrase list returns: neither the slice expression nor the
final `panic` fails. -/
theorem walk_total : ∀ (phrases : List (List α)) (possibleLine : List α), phrases ≠ [] →
    ∃ b, wildcardWalk phrases possibleLine = Except.ok b := by
  intro phrases
  induction phrases with
  | nil => intro _ h; exact absurd rfl h
  | cons phrase rest ih =>
    intro possibleLine _
    cases hi : stringsIndex possibleLine phrase with
    | none => exact ⟨false, walk_not_found phrase rest possibleLine hi⟩
    | some i =>
      cases rest with
      | nil => exact ⟨true, walk_last phrase possibleLine i hi⟩
      | cons next rest2 =>
        by_cases hlen : possibleLine.length ≤ phrase.length + i
        · exact ⟨false, walk_no_room phrase next rest2 possibleLine i hi hlen⟩
        · rw [walk_advance phrase next rest2 possibleLine i hi hlen]
          exact ih _ (List.cons_ne_nil _ _)

end codeUnitLemmas

theorem collectPhrases_total {α : Type} (target : List α) :
    ∀ positions : List (Nat × Nat),
      (∀ loc ∈ positions, loc.1 ≤ loc.2 ∧ loc.2 ≤ target.length) →
      ∃ phrases, collectPhrases target positions = Except.ok phrases := by
  intro positions
  induction positions with
  | nil => intro _; exact ⟨[], rfl⟩
  | cons loc rest ih =>
    intro h
    obtain ⟨phrases, hph⟩ := ih (fun l hl => h l (List.mem_cons_of_mem _ hl))
    have hloc := h loc (List.mem_cons_self _ _)
    rw [collectPhrases]
    by_cases hbig : (loc.2 : Int) - (loc.1 : Int) > 1
    · rw [if_pos hbig, goSlice, if_pos hloc]
      simp only [hph]
      exact ⟨_, rfl⟩
    · rw [if_neg hbig]
      exact ⟨phrases, hph⟩

/-- C17: the comparator built by `CreateWildcardComparator` returns for every candidate and
every target whose wildcard spans lie inside the target; in particular the walk over a
non-empty phrase list never reaches the final `panic`, and never slices `possibleLine`
beyond its length. -/
theorem CreateWildcardComparator_total {α : Type} [DecidableEq α]
    (wildcard : List α → List (Nat × Nat)) (possibleLine target : List α)
    (h : ∀ loc ∈ wildcard target, loc.1 ≤ loc.2 ∧ loc.2 ≤ target.length) :
    (∃ b, CreateWildcardComparator wildcard possibleLine target = Except.ok b) ∧
    ∀ (phrases : List (List α)) (line : List α), phrases ≠ [] →
      ∃ b, wildcardWalk phrases line = Except.ok b := by
  refine ⟨?_, walk_total⟩
  obtain ⟨phrases, hph⟩ := collectPhrases_total target (wildcard target) h
  simp only [CreateWildcardComparator, hph]
  by_cases hpos : (wildcard target).length = 0
  · rw [if_pos hpos]; exact ⟨_, rfl⟩
  · rw [if_neg hpos]
    by_cases hz : phrases.length = 0
    · rw [if_pos hz]; exact ⟨_, rfl⟩
    · rw [if_neg hz]
      exact walk_total phrases possibleLine (fun hn => hz (by rw [hn]; rfl))

/-- C17, an instance: the target `"a**b***c"` with the wildcard `\*+` has the spans `[1, 3)`
and `[4, 7)`, and the comparator returns true on the candidate `"x**y***"`. -/
theorem CreateWildcardComparator_total_witness :
    (∀ loc ∈ starRuns "a**b***c".toList, loc.1 ≤ loc.2 ∧ loc.2 ≤ "a**b***c".toList.length) ∧
    (∃ b, CreateWildcardComparator starRuns "x**y***".toList "a**b***c".toList
      = Except.ok b) ∧
    starRuns "a**b***c".toList = [(1, 3), (4, 7)] ∧
    CreateWildcardComparator starRuns "x**y***".toList "a**b***c".toList = Except.ok true :=
  ⟨by decide,
    (CreateWildcardComparator_total starRuns "x**y***".toList "a**b***c".toList
      (by decide)).1,
    by decide, by decide⟩

/-! ## The walk finds the phrases exactly when they occur in order -/

section occurrenceLemmas

variable {α : Type} [DecidableEq α]

theorem occurInOrder_cons (candidate : List α) (lo q : Nat) (phrase : List α)
    (phrases : List (List α)) (positions : List Nat) :
    occurInOrder candidate lo (phrase :: phrases) (q :: positions) = true ↔
      lo ≤ q ∧ q + phrase.length ≤ candidate.length ∧
        phrase.isPrefixOf (candidate.drop q) = true ∧
        occurInOrder candidate (q + phrase.length + 1) phrases positions = true := by
  rw [occurInOrder]
  simp only [Bool.and_eq_true, decide_eq_true_eq, and_assoc]

theorem occurInOrder_cons_nil (candidate : List α) (lo : Nat) (phrase : List α)
    (phrases : List (List α)) :
    occurInOrder candidate lo (phrase :: phrases) [] = false := by
  simp [occurInOrder]

theorem occurInOrder_nil_cons (candidate : List α) (lo q : Nat) (positions : List Nat) :
    occurInOrder candidate lo [] (q :: positions) = false := by
  simp [occurInOrder]

theorem occurInOrder_mono (candidate : List α) (phrases : List (List α))
    (positions : List Nat) (lo lo2 : Nat) (hle : lo2 ≤ lo)
    (h : occurInOrder candidate lo phrases positions = true) :
    occurInOrder candidate lo2 phrases positions = true := by
  cases phrases with
  | nil =>
    cases positions with
    | nil => rfl
    | cons q qs => rw [occurInOrder_nil_cons] at h; cases h
  | cons phrase rest =>
    cases positions with
    | nil => rw [occurInOrder_cons_nil] at h; cases h
    | cons q qs =>
      rw [occurInOrder_cons] at h ⊢
      exact ⟨Nat.le_trans hle h.1, h.2⟩

/-- Occurrences in the candidate from offset `k` on are occurrences in the rest of the
candidate after its first `k` characters. -/
theorem occurInOrder_drop (candidate : List α) (k : Nat) :
    ∀ (phrases : List (List α)) (positions : List Nat) (lo : Nat), k ≤ lo →
      occurInOrder candidate lo phrases positions = true →
      occurInOrder (candidate.drop k) (lo - k) phrases
        (positions.map (fun q => q - k)) = true := by
  intro phrases
  induction phrases with
  | nil =>
    intro positions lo _ h
    cases positions with
    | nil => rfl
    | cons q qs => rw [occurInOrder_nil_cons] at h; cases h
  | cons phrase rest ih =>
    intro positions lo hk h
    cases positions with
    | nil => rw [occurInOrder_cons_nil] at h; cases h
    | cons q qs =>
      rw [occurInOrder_cons] at h
      obtain ⟨h1, h2, h3, h4⟩ := h
      have hrec := ih qs (q + phrase.length + 1) (by omega) h4
      have he : q + phrase.length + 1 - k = q - k + phrase.length + 1 := by omega
      rw [he] at hrec
      rw [List.map_cons, occurInOrder_cons]
      refine ⟨by omega, ?_, ?_, hrec⟩
      · rw [List.length_drop]; omega
      · rw [List.drop_drop]
        have : k + (q - k) = q := by omega
        rw [this]; exact h3

/-- Occurrences in the rest of the candidate after its first `k` characters are occurrences
in the candidate, `k` characters further on. -/
theorem occurInOrder_undrop (candidate : List α) (k : Nat) (hk : k ≤ candidate.length) :
    ∀ (phrases : List (List α)) (positions : List Nat) (lo : Nat),
      occurInOrder (candidate.drop k) lo phrases positions = true →
      occurInOrder candidate (lo + k) phrases (positions.map (fun q => q + k)) = true := by
  intro phrases
  induction phrases with
  | nil =>
    intro positions lo h
    cases positions with
    | nil => rfl
    | cons q qs => rw [occurInOrder_nil_cons] at h; cases h
  | cons phrase rest ih =>
    intro positions lo h
    cases positions with
    | nil => rw [occurInOrder_cons_nil] at h; cases h
    | cons q qs =>
      rw [occurInOrder_cons] at h
      obtain ⟨h1, h2, h3, h4⟩ := h
      rw [List.length_drop] at h2
      rw [List.drop_drop] at h3
      have hrec := ih qs (q + phrase.length + 1) h4
      have he : q + phrase.length + 1 + k = q + k + phrase.length + 1 := by omega
      rw [he] at hrec
      rw [List.map_cons, occurInOrder_cons]
      refine ⟨by omega, by omega, ?_, hrec⟩
      have : q + k = k + q := by omega
      rw [this]; exact h3

/-- The walk returns true exactly when the phrases occur in order in the candidate. -/
theorem walk_true_iff : ∀ (phrases : List (List α)) (candidate : List α), phrases ≠ [] →
    (wildcardWalk phrases candidate = Except.ok true ↔
      ∃ positions, occurInOrder candidate 0 phrases positions = true) := by
  intro phrases
  induction phrases with
  | nil => intro _ h; exact absurd rfl h
  | cons phrase rest ih =>
    intro candidate _
    cases hi : stringsIndex candidate phrase with
    | none =>
      rw [walk_not_found phrase rest candidate hi]
      constructor
      · intro h; cases h
      · rintro ⟨positions, hp⟩
        cases positions with
        | nil => rw [occurInOrder_cons_nil] at hp; cases hp
        | cons q qs =>
          rw [occurInOrder_cons] at hp
          have := stringsIndex_none phrase candidate q hi hp.2.1
          rw [this] at hp
          exact absurd hp.2.2.1 (by simp)
    | some i =>
      obtain ⟨hin, hpre⟩ := stringsIndex_some phrase candidate i hi
      cases rest with
      | nil =>
        rw [walk_last phrase candidate i hi]
        refine ⟨fun _ => ⟨[i], ?_⟩, fun _ => rfl⟩
        rw [occurInOrder_cons]
        exact ⟨Nat.zero_le _, hin, hpre, rfl⟩
      | cons next rest2 =>
        by_cases hlen : candidate.length ≤ phrase.length + i
        · rw [walk_no_room phrase next rest2 candidate i hi hlen]
          constructor
          · intro h; cases h
          · rintro ⟨positions, hp⟩
            cases positions with
            | nil => rw [occurInOrder_cons_nil] at hp; cases hp
            | cons q qs =>
              rw [occurInOrder_cons] at hp
              obtain ⟨_, _, hq, hrest⟩ := hp
              have hiq := stringsIndex_le phrase candidate i q hi hq
              cases qs with
              | nil => rw [occurInOrder_cons_nil] at hrest; cases hrest
              | cons q2 qs2 =>
                rw [occurInOrder_cons] at hrest
                omega
        · rw [walk_advance phrase next rest2 candidate i hi hlen,
            ih _ (List.cons_ne_nil _ _)]
          constructor
          · rintro ⟨positions, hp⟩
            refine ⟨i :: positions.map (fun q => q + (i + phrase.length + 1)), ?_⟩
            rw [occurInOrder_cons]
            refine ⟨Nat.zero_le _, hin, hpre, ?_⟩
            have := occurInOrder_undrop candidate (i + phrase.length + 1) (by omega)
              (next :: rest2) positions 0 hp
            rw [Nat.zero_add] at this
            exact this
          · rintro ⟨positions, hp⟩
            cases positions with
            | nil => rw [occurInOrder_cons_nil] at hp; cases hp
            | cons q qs =>
              rw [occurInOrder_cons] at hp
              obtain ⟨_, _, hq, hrest⟩ := hp
              have hiq := stringsIndex_le phrase candidate i q hi hq
              have h1 := occurInOrder_mono candidate (next :: rest2) qs
                (q + phrase.length + 1) (i + phrase.length + 1) (by omega) hrest
              have h2 := occurInOrder_drop candidate (i + phrase.length + 1)
                (next :: rest2) qs (i + phrase.length + 1) (Nat.le_refl _) h1
              rw [Nat.sub_self] at h2
              exact ⟨_, h2⟩

end occurrenceLemmas

/-- C18: for every candidate and every non-empty list of phrases, of any lengths, the walk
of `CreateWildcardComparator` returns, and it returns true exactly when there are offsets at
which the phrases occur in the candidate in order, each next phrase starting at least one
character after the end of the previous one (so with a gap of at least one character). -/
theorem wildcardWalk_true_iff_occurInOrder {α : Type} [DecidableEq α]
    (phrases : List (List α)) (candidate : List α) (hne : phrases ≠ []) :
    (∃ b, wildcardWalk phrases candidate = Except.ok b) ∧
    (wildcardWalk phrases candidate = Except.ok true ↔
      ∃ positions, occurInOrder candidate 0 phrases positions = true) :=
  ⟨walk_total phrases candidate hne, walk_true_iff phrases candidate hne⟩

/-- C18, an instance: the phrases `"hello "` and `" world"` occur in `"hello big world"` at
the offsets 0 and 9, so the walk returns true; in `"abcd"` the phrases `"ab"` and `"cd"` are
adjacent, without a character between them, and the walk returns false. -/
theorem wildcardWalk_true_iff_occurInOrder_witness :
    ["hello ".toList, " world".toList] ≠ [] ∧
    occurInOrder "hello big world".toList 0 ["hello ".toList, " world".toList] [0, 9] = true ∧
    wildcardWalk ["hello ".toList, " world".toList] "hello big world".toList
      = Except.ok true ∧
    wildcardWalk ["ab".toList, "cd".toList] "abcd".toList = Except.ok false :=
  ⟨by decide, by decide,
    (wildcardWalk_true_iff_occurInOrder ["hello ".toList, " world".toList]
      "hello big world".toList (by decide)).2.2 ⟨[0, 9], by decide⟩,
    by decide⟩

/-! ## Substring search -/

/-- `strings.Contains(s, substr)` is true exactly when `substr` is a contiguous part of
`s`. -/
theorem stringsContains_iff_infix {α : Type} [DecidableEq α] (s sub : List α) :
    stringsContains s sub = true ↔ sub <:+: s := by
  constructor
  · intro h
    obtain ⟨i, hi⟩ := Option.isSome_iff_exists.1 h
    have hpre := (stringsIndex_some sub s i hi).2
    exact (List.isPrefixOf_iff_prefix.1 hpre).isInfix.trans (List.drop_suffix i s).isInfix
  · rintro ⟨a, b, hab⟩
    cases hi : stringsIndex s sub with
    | some i => simp [stringsContains, hi]
    | none =>
      have hlen : a.length + sub.length ≤ s.length := by
        rw [← hab]; simp only [List.length_append]; omega
      have hfalse := stringsIndex_none sub s a.length hi hlen
      have hdrop : s.drop a.length = sub ++ b := by
        rw [← hab, List.append_assoc, List.drop_left]
      rw [hdrop] at hfalse
      have htrue : sub.isPrefixOf (sub ++ b) = true :=
        List.isPrefixOf_iff_prefix.2 (List.prefix_append sub b)
      rw [htrue] at hfalse
      cases hfalse

/-- C13: for a target in which the wildcard pattern has no match, the comparator built by
`CreateWildcardComparator` returns the result of `StringComparatorSubsetSearch`, which is
plain substring containment: true exactly when the target is a contiguous part of the
candidate line. -/
theorem CreateWildcardComparator_no_wildcard {α : Type} [DecidableEq α]
    (wildcard : List α → List (Nat × Nat)) (possibleLine target : List α)
    (h : wildcard target = []) :
    CreateWildcardComparator wildcard possibleLine target =
      Except.ok (StringComparatorSubsetSearch possibleLine target) ∧
    (StringComparatorSubsetSearch possibleLine target = true ↔ target <:+: possibleLine) ∧
    (CreateWildcardComparator wildcard possibleLine target = Except.ok true ↔
      target <:+: possibleLine) ∧
    (CreateWildcardComparator wildcard possibleLine target = Except.ok false ↔
      ¬ target <:+: possibleLine) := by
  have hc : CreateWildcardComparator wildcard possibleLine target =
      Except.ok (StringComparatorSubsetSearch possibleLine target) := by
    simp [CreateWildcardComparator, h]
  have hs : StringComparatorSubsetSearch possibleLine target = true ↔
      target <:+: possibleLine := stringsContains_iff_infix possibleLine target
  refine ⟨hc, hs, ?_, ?_⟩
  · rw [hc, ← hs]
    constructor
    · intro h1; injection h1
    · intro h1; rw [h1]
  · rw [hc, ← hs]
    constructor
    · intro h1 h2
      rw [h2] at h1
      injection h1 with h3
      cases h3
    · intro h1
      rw [Bool.eq_false_iff.2 h1]

/-- C13, two instances: `\*+` has no match in `"hello"`; the candidate `"say hello"`
contains the target and is accepted, the candidate `"help"` does not and is rejected. -/
theorem CreateWildcardComparator_no_wildcard_witness :
    starRuns "hello".toList = [] ∧
    CreateWildcardComparator starRuns "say hello".toList "hello".toList = Except.ok true ∧
    CreateWildcardComparator starRuns "help".toList "hello".toList = Except.ok false :=
  ⟨by decide,
    (CreateWildcardComparator_no_wildcard starRuns "say hello".toList
      "hello".toList (by decide)).1.trans (by decide),
    (CreateWildcardComparator_no_wildcard starRuns "help".toList
      "hello".toList (by decide)).1.trans (by decide)⟩

/-! ## LoadTranscript: one iteration of the loop -/

theorem captures_of_not_match (re : Regexp) (line : GoString)
    (h : re.MatchString line = false) : re.captures line = none := by
  cases hf : re.FindStringSubmatch line with
  | none => simp [Regexp.captures, hf]
  | some m => simp [Regexp.MatchString, hf] at h

/-- For a pattern with two capture groups, the groups are reported exactly on the lines in
which the pattern matches. -/
theorem captures_isSome (re : Regexp) (hg : re.hasTwoGroups) (line : GoString) :
    (re.captures line).isSome = re.MatchString line := by
  cases h : re.FindStringSubmatch line with
  | none => simp [Regexp.captures, Regexp.MatchString, h]
  | some m =>
    have hlen := hg line m h
    match m, hlen with
    | a0 :: a1 :: a2 :: rest, _ => simp [Regexp.captures, Regexp.MatchString, h]

/-- With a pattern that is set and has two capture groups `createNewRawLineIfMatch` returns:
the new record for a line in which the pattern matches, and false otherwise. -/
theorem createNewRawLineIfMatch_eq (re : Regexp) (hg : re.hasTwoGroups) (line : GoString)
    (n : Int) :
    createNewRawLineIfMatch (some re) line n =
      Except.ok (match re.captures line with
        | some (actor, text) => (true, ⟨actor, text, [n]⟩)
        | none => (false, RawLine.zero)) := by
  cases h : re.FindStringSubmatch line with
  | none =>
    simp [createNewRawLineIfMatch, ptrMatchString, Regexp.MatchString, Regexp.captures, h]
  | some m =>
    have hlen := hg line m h
    match m, hlen with
    | a0 :: a1 :: a2 :: rest, _ =>
      simp [createNewRawLineIfMatch, ptrMatchString, ptrFindStringSubmatch,
        Regexp.MatchString, Regexp.captures, h, goIndex]

/-- A record returned by `createNewRawLineIfMatch` carries the number of the current line. -/
theorem createNewRawLineIfMatch_lineNumbers (pattern : Option Regexp) (line : GoString)
    (n : Int) (r : RawLine) (h : createNewRawLineIfMatch pattern line n = Except.ok (true, r)) :
    r.LineNumbers = [n] := by
  unfold createNewRawLineIfMatch at h
  split at h
  · cases h
  · cases h
  · split at h
    · cases h
    · split at h
      · cases h
      · split at h
        · cases h
        · cases h; rfl

theorem createNewRawLineIfMatch_error (pattern : Option Regexp) (line : GoString)
    (n : Int) (e : Panic) (h : createNewRawLineIfMatch pattern line n = Except.error e) :
    e = Panic.nilPointer ∨ e = Panic.indexRange := by
  unfold createNewRawLineIfMatch at h
  split at h
  · rename_i e2 hm
    cases h
    cases pattern with
    | none => simp [ptrMatchString] at hm; exact Or.inl hm.symm
    | some re => simp [ptrMatchString] at hm
  · cases h
  · split at h
    · rename_i e2 hm
      cases h
      cases pattern with
      | none => simp [ptrFindStringSubmatch] at hm; exact Or.inl hm.symm
      | some re => simp [ptrFindStringSubmatch] at hm
    · split at h
      · rename_i e2 hm
        cases h
        unfold goIndex at hm
        split at hm
        · cases hm
        · cases hm; exact Or.inr rfl
      · split at h
        · rename_i e2 hm
          cases h
          unfold goIndex at hm
          split at hm
          · cases hm
          · cases hm; exact Or.inr rfl
        · cases h

theorem isNonDialogue_error (skipRegexps : List (Option Regexp)) (line : GoString)
    (e : Panic) (h : isNonDialogue skipRegexps line = Except.error e) :
    e = Panic.nilPointer := by
  induction skipRegexps with
  | nil => simp [isNonDialogue] at h
  | cons r rest ih =>
    cases r with
    | none =>
      simp [isNonDialogue, ptrMatchString] at h
      exact h.symm
    | some re =>
      cases hm : re.MatchString line with
      | true => simp [isNonDialogue, ptrMatchString, hm] at h
      | false =>
        simp only [isNonDialogue, ptrMatchString, hm] at h
        exact ih h

/-- When no non-dialogue pattern is nil, `isNonDialogue` returns, and it returns whether the
line matches one of the patterns. -/
theorem isNonDialogue_eq (skipRegexps : List (Option Regexp)) (line : GoString)
    (hskip : ∀ r ∈ skipRegexps, r ≠ none) :
    isNonDialogue skipRegexps line = Except.ok (matchesNonDialogue skipRegexps line) := by
  induction skipRegexps with
  | nil => rfl
  | cons r rest ih =>
    have hrest := ih (fun x hx => hskip x (List.mem_cons_of_mem _ hx))
    cases r with
    | none => exact absurd rfl (hskip none (List.mem_cons_self _ _))
    | some re =>
      cases hm : re.MatchString line with
      | true => simp [isNonDialogue, ptrMatchString, hm, matchesNonDialogue]
      | false =>
        simp only [isNonDialogue, ptrMatchString, hm, hrest]
        simp [matchesNonDialogue, hm]

theorem startsUnattributed_eq (s : ScriptParser) (st : LoadState) (line : GoString)
    (hskip : ∀ r ∈ s.nonDialogueRegexp, r ≠ none) :
    LoadTranscript.startsUnattributed s st line =
      Except.ok (st.prevLine.LineNumbers.isEmpty || !s.isMultiLineDialogue
        || matchesNonDialogue s.nonDialogueRegexp line) := by
  unfold LoadTranscript.startsUnattributed
  split
  · rename_i h
    rw [h]; rfl
  · rename_i h
    rw [Bool.eq_false_iff.2 h, isNonDialogue_eq _ _ hskip]
    rfl

theorem startsUnattributed_single (s : ScriptParser) (st : LoadState) (line : GoString)
    (hm : s.isMultiLineDialogue = false) :
    LoadTranscript.startsUnattributed s st line = Except.ok true := by
  simp [LoadTranscript.startsUnattributed, hm]

theorem startsUnattributed_false (s : ScriptParser) (st : LoadState) (line : GoString)
    (h : LoadTranscript.startsUnattributed s st line = Except.ok false) :
    st.prevLine.LineNumbers ≠ [] := by
  intro hnil
  simp [LoadTranscript.startsUnattributed, hnil] at h

/-- Rule 1: a line in which the start-of-turn pattern matches. -/
theorem step_match (s : ScriptParser) (re : Regexp) (hpat : s.actorDialoguePattern = some re)
    (hg : re.hasTwoGroups) (st : LoadState) (line actor text : GoString)
    (hc : re.captures line = some (actor, text)) :
    LoadTranscript.step s st line =
      Except.ok ⟨st.rawScript ++ [st.prevLine], ⟨actor, text, [st.currentLineNumber + 1]⟩,
        st.currentLineNumber + 1⟩ := by
  simp only [LoadTranscript.step, hpat, createNewRawLineIfMatch_eq re hg, hc]

/-- Rule 2: a line without a match that cannot be merged. -/
theorem step_new (s : ScriptParser) (re : Regexp) (hpat : s.actorDialoguePattern = some re)
    (hg : re.hasTwoGroups) (st : LoadState) (line : GoString)
    (hc : re.captures line = none)
    (hu : LoadTranscript.startsUnattributed s st line = Except.ok true) :
    LoadTranscript.step s st line =
      Except.ok ⟨st.rawScript ++ [st.prevLine],
        ⟨NON_ACTOR, line, [st.currentLineNumber + 1]⟩, st.currentLineNumber + 1⟩ := by
  simp only [LoadTranscript.step, hpat, createNewRawLineIfMatch_eq re hg, hc, hu]

/-- Rule 3: a continuation line. -/
theorem step_merge (s : ScriptParser) (re : Regexp) (hpat : s.actorDialoguePattern = some re)
    (hg : re.hasTwoGroups) (st : LoadState) (line : GoString)
    (hc : re.captures line = none)
    (hu : LoadTranscript.startsUnattributed s st line = Except.ok false) :
    LoadTranscript.step s st line =
      Except.ok ⟨st.rawScript,
        ⟨st.prevLine.Actor, st.prevLine.Line ++ ('\n' :: line),
          st.prevLine.LineNumbers ++ [st.currentLineNumber + 1]⟩,
        st.currentLineNumber + 1⟩ := by
  simp only [LoadTranscript.step, hpat, createNewRawLineIfMatch_eq re hg, hc, hu]

/-- The outcomes of an iteration that does not panic, for any parser. -/
theorem step_ok_cases (s : ScriptParser) (st next : LoadState) (line : GoString)
    (h : LoadTranscript.step s st line = Except.ok next) :
    (∃ r : RawLine, r.LineNumbers = [st.currentLineNumber + 1] ∧
      next = ⟨st.rawScript ++ [st.prevLine], r, st.currentLineNumber + 1⟩) ∨
    (st.prevLine.LineNumbers ≠ [] ∧
      next = ⟨st.rawScript, ⟨st.prevLine.Actor, st.prevLine.Line ++ ('\n' :: line),
        st.prevLine.LineNumbers ++ [st.currentLineNumber + 1]⟩,
        st.currentLineNumber + 1⟩) := by
  unfold LoadTranscript.step at h
  simp only at h
  split at h
  · cases h
  · rename_i newLine hc
    cases h
    exact Or.inl ⟨newLine, createNewRawLineIfMatch_lineNumbers _ _ _ _ hc, rfl⟩
  · split at h
    · cases h
    · cases h
      exact Or.inl ⟨_, rfl, rfl⟩
    · rename_i hu
      cases h
      exact Or.inr ⟨startsUnattributed_false s st line hu, rfl⟩

/-- An iteration can only panic at a nil pattern or at a missing capture group. -/
theorem step_error (s : ScriptParser) (st : LoadState) (line : GoString) (e : Panic)
    (h : LoadTranscript.step s st line = Except.error e) :
    e = Panic.nilPointer ∨ e = Panic.indexRange := by
  unfold LoadTranscript.step at h
  simp only at h
  split at h
  · rename_i e2 hc
    cases h
    exact createNewRawLineIfMatch_error _ _ _ _ hc
  · cases h
  · split at h
    · rename_i e2 hu
      cases h
      unfold LoadTranscript.startsUnattributed at hu
      split at hu
      · cases hu
      · exact Or.inl (isNonDialogue_error _ _ _ hu)
    · cases h
    · cases h

/-- With the start-of-turn pattern set, two capture groups, and no nil non-dialogue pattern,
an iteration does not panic. -/
theorem step_total (s : ScriptParser) (re : Regexp) (hpat : s.actorDialoguePattern = some re)
    (hg : re.hasTwoGroups) (hskip : ∀ r ∈ s.nonDialogueRegexp, r ≠ none)
    (st : LoadState) (line : GoString) :
    ∃ next, LoadTranscript.step s st line = Except.ok next := by
  cases hc : re.captures line with
  | some p =>
    obtain ⟨actor, text⟩ := p
    exact ⟨_, step_match s re hpat hg st line actor text hc⟩
  | none =>
    have hu := startsUnattributed_eq s st line hskip
    cases hb : (st.prevLine.LineNumbers.isEmpty || !s.isMultiLineDialogue
        || matchesNonDialogue s.nonDialogueRegexp line) with
    | true => rw [hb] at hu; exact ⟨_, step_new s re hpat hg st line hc hu⟩
    | false => rw [hb] at hu; exact ⟨_, step_merge s re hpat hg st line hc hu⟩

/-! ## LoadTranscript: the loop -/

theorem loopFrom_append (s : ScriptParser) (rest : List GoString) :
    ∀ (st : LoadState) (ls : List GoString),
      LoadTranscript.loopFrom s st (ls ++ rest) =
        match LoadTranscript.loopFrom s st ls with
        | Except.error e => Except.error e
        | Except.ok mid => LoadTranscript.loopFrom s mid rest := by
  intro st ls
  induction ls generalizing st with
  | nil => rfl
  | cons l ls ih =>
    simp only [List.cons_append, LoadTranscript.loopFrom]
    cases LoadTranscript.step s st l with
    | error e => rfl
    | ok next => exact ih next

theorem loopFrom_singleton (s : ScriptParser) (st : LoadState) (l : GoString) :
    LoadTranscript.loopFrom s st [l] = LoadTranscript.step s st l := by
  simp only [LoadTranscript.loopFrom]
  cases LoadTranscript.step s st l <;> rfl

/-- A loop over `ls ++ [l]` that does not panic is a loop over `ls` that does not panic,
followed by one iteration that does not panic. -/
theorem loop_append_ok (s : ScriptParser) (ls : List GoString) (l : GoString)
    (final : LoadState) (h : LoadTranscript.loop s (ls ++ [l]) = Except.ok final) :
    ∃ st, LoadTranscript.loop s ls = Except.ok st ∧
      LoadTranscript.step s st l = Except.ok final := by
  unfold LoadTranscript.loop at h ⊢
  rw [loopFrom_append] at h
  cases hls : LoadTranscript.loopFrom s LoadState.init ls with
  | error e => rw [hls] at h; cases h
  | ok st =>
    rw [hls] at h
    simp only [loopFrom_singleton] at h
    exact ⟨st, rfl, h⟩

/-- What holds of the state after a loop that did not panic, for any parser: the line
counter, the pending record, the sentinel at the head of the records, and the line numbers
of the records. -/
theorem loop_inv (s : ScriptParser) (lines : List GoString) :
    ∀ st, LoadTranscript.loop s lines = Except.ok st →
      st.currentLineNumber = (lines.length : Int) - 1 ∧
      (st.prevLine.LineNumbers = [] ↔ lines = []) ∧
      (∃ tl, st.records = RawLine.zero :: tl ∧ ∀ r ∈ tl, r.LineNumbers ≠ []) ∧
      (st.records.map RawLine.LineNumbers).flatten =
        (List.range lines.length).map (fun k : Nat => (k : Int)) := by
  induction lines using List.reverseRecOn with
  | nil =>
    intro st h
    have hst : st = LoadState.init := by
      simp only [LoadTranscript.loop, LoadTranscript.loopFrom] at h
      injection h with h2
      exact h2.symm
    subst hst
    exact ⟨rfl, by simp [LoadState.init, RawLine.zero],
      ⟨[], rfl, fun r hr => by cases hr⟩, rfl⟩
  | append_singleton ls l ih =>
    intro final h
    obtain ⟨st, hst, hstep⟩ := loop_append_ok s ls l final h
    obtain ⟨hcur, _, ⟨tl, htl, hall⟩, hflat⟩ := ih st hst
    simp only [LoadState.records] at htl hflat
    have hflat2 : (st.rawScript.map RawLine.LineNumbers).flatten
        ++ st.prevLine.LineNumbers =
        (List.range ls.length).map (fun k : Nat => (k : Int)) := by
      rw [← hflat]; simp
    rcases step_ok_cases s st final l hstep with ⟨r, hr, rfl⟩ | ⟨hne, rfl⟩
    · refine ⟨?_, ?_, ⟨tl ++ [r], ?_, ?_⟩, ?_⟩
      · simp only [List.length_append, List.length_singleton, hcur]
        push_cast; omega
      · simp [hr]
      · simp only [LoadState.records, htl]; rfl
      · intro x hx
        rcases List.mem_append.1 hx with hx | hx
        · exact hall x hx
        · rw [List.mem_singleton.1 hx, hr]; simp
      · simp only [LoadState.records, List.map_append, List.flatten_append,
          List.map_cons, List.map_nil, List.flatten_cons, List.flatten_nil, hr,
          List.append_nil, List.length_append, List.length_singleton, List.range_succ, hcur]
        rw [hflat2]
        simp
    · have hrs : ∃ xs, st.rawScript = RawLine.zero :: xs ∧ tl = xs ++ [st.prevLine] := by
        cases hr : st.rawScript with
        | nil =>
          rw [hr] at htl
          simp only [List.nil_append, List.cons.injEq] at htl
          rw [htl.1] at hne
          exact absurd rfl hne
        | cons x xs =>
          rw [hr] at htl
          simp only [List.cons_append, List.cons.injEq] at htl
          exact ⟨xs, by rw [htl.1], htl.2.symm⟩
      obtain ⟨xs, hxs, htleq⟩ := hrs
      refine ⟨?_, ?_, ⟨xs ++ [(⟨st.prevLine.Actor, st.prevLine.Line ++ ('\n' :: l),
        st.prevLine.LineNumbers ++ [st.currentLineNumber + 1]⟩ : RawLine)], ?_, ?_⟩, ?_⟩
      · simp only [List.length_append, List.length_singleton, hcur]
        push_cast; omega
      · simp
      · simp only [LoadState.records, hxs]; rfl
      · intro y hy
        rcases List.mem_append.1 hy with hy | hy
        · exact hall y (by rw [htleq]; exact List.mem_append_left _ hy)
        · rw [List.mem_singleton.1 hy]; simp
      · simp only [LoadState.records, List.map_append, List.flatten_append, List.map_cons,
          List.map_nil, List.flatten_cons, List.flatten_nil, List.append_nil,
          List.length_append, List.length_singleton, List.range_succ, hcur]
        rw [← List.append_assoc, hflat2]
        simp

theorem loopFrom_error (s : ScriptParser) (lines : List GoString) :
    ∀ (st : LoadState) (e : Panic), LoadTranscript.loopFrom s st lines = Except.error e →
      e = Panic.nilPointer ∨ e = Panic.indexRange := by
  induction lines with
  | nil => intro st e h; simp [LoadTranscript.loopFrom] at h
  | cons l rest ih =>
    intro st e h
    simp only [LoadTranscript.loopFrom] at h
    cases hstep : LoadTranscript.step s st l with
    | error e2 =>
      rw [hstep] at h
      cases h
      exact step_error s st l _ hstep
    | ok next =>
      rw [hstep] at h
      exact ih next e h

/-- With the start-of-turn pattern set, two capture groups, and no nil non-dialogue pattern,
the loop does not panic. -/
theorem loopFrom_total (s : ScriptParser) (re : Regexp)
    (hpat : s.actorDialoguePattern = some re) (hg : re.hasTwoGroups)
    (hskip : ∀ r ∈ s.nonDialogueRegexp, r ≠ none) (lines : List GoString) :
    ∀ st : LoadState, ∃ final, LoadTranscript.loopFrom s st lines = Except.ok final := by
  induction lines with
  | nil => intro st; exact ⟨st, rfl⟩
  | cons l rest ih =>
    intro st
    obtain ⟨next, hnext⟩ := step_total s re hpat hg hskip st l
    obtain ⟨final, hfinal⟩ := ih next
    exact ⟨final, by simp only [LoadTranscript.loopFrom, hnext, hfinal]⟩

theorem goSliceFrom_one_cons {β : Type} (x : β) (tl : List β) :
    goSliceFrom (x :: tl) 1 = Except.ok tl := by
  simp [goSliceFrom]

/-- The result of `LoadTranscript` after a loop that did not panic: the panic of the scan
error, or the Turns of the records after the sentinel. -/
theorem turns_of_loop (s : ScriptParser) (input : Scanned) (st : LoadState)
    (tl : List RawLine) (hloop : LoadTranscript.loop s input.lines = Except.ok st)
    (htl : st.records = RawLine.zero :: tl) :
    LoadTranscript.turns s input =
      if input.err = true then Except.error Panic.scanFailed
      else Except.ok (tl.map lineOfRaw) := by
  simp only [LoadTranscript.turns, LoadTranscript, LoadTranscript.rawLines, hloop, htl,
    goSliceFrom_one_cons]
  cases input.err with
  | true => rfl
  | false => simp [Except.map, NewScript_arr]

/-- When `LoadTranscript` returns, the scan ended without error, the loop did not panic, and
the Turns are the records after the sentinel. -/
theorem turns_ok_inv (s : ScriptParser) (input : Scanned) (turns : List Line)
    (h : LoadTranscript.turns s input = Except.ok turns) :
    ∃ st tl, LoadTranscript.loop s input.lines = Except.ok st ∧
      st.records = RawLine.zero :: tl ∧ turns = tl.map lineOfRaw ∧ input.err = false := by
  cases hloop : LoadTranscript.loop s input.lines with
  | error e =>
    simp [LoadTranscript.turns, LoadTranscript, LoadTranscript.rawLines, hloop,
      Except.map] at h
  | ok st =>
    obtain ⟨_, _, ⟨tl, htl, _⟩, _⟩ := loop_inv s input.lines st hloop
    rw [turns_of_loop s input st tl hloop htl] at h
    cases herr : input.err with
    | true => rw [herr] at h; simp at h
    | false =>
      rw [herr] at h
      simp only [Bool.false_eq_true, if_false] at h
      injection h with h2
      exact ⟨st, tl, rfl, htl, h2.symm, rfl⟩

/-- When `LoadTranscript` panics, it is at a nil pattern, at a missing capture group, or at
the scan error; never at the slice `rawScript[1:]`. -/
theorem turns_error (s : ScriptParser) (input : Scanned) (e : Panic)
    (h : LoadTranscript.turns s input = Except.error e) :
    e = Panic.nilPointer ∨ e = Panic.indexRange ∨ e = Panic.scanFailed := by
  cases hloop : LoadTranscript.loop s input.lines with
  | error e2 =>
    simp only [LoadTranscript.turns, LoadTranscript, LoadTranscript.rawLines, hloop,
      Except.map] at h
    cases h
    rcases loopFrom_error s input.lines LoadState.init _ hloop with h1 | h1
    · exact Or.inl h1
    · exact Or.inr (Or.inl h1)
  | ok st =>
    obtain ⟨_, _, ⟨tl, htl, _⟩, _⟩ := loop_inv s input.lines st hloop
    rw [turns_of_loop s input st tl hloop htl] at h
    cases herr : input.err with
    | true =>
      rw [herr] at h
      simp only [if_true] at h
      cases h
      exact Or.inr (Or.inr rfl)
    | false => rw [herr] at h; simp at h

/-! ## The scanner and the example patterns -/

theorem byteLen_replicate (n : Nat) (c : Char) :
    byteLen (List.replicate n c) = n * c.utf8Size := by
  induction n with
  | zero => simp [byteLen]
  | succ n ih =>
    have hcons : byteLen (c :: List.replicate n c) = c.utf8Size + byteLen (List.replicate n c) := by
      simp [byteLen]
    rw [List.replicate_succ, hcons, ih, Nat.succ_mul, Nat.add_comm]

/-- The scan of a short line followed by a line that does not fit the buffer delivers the
short line and ends with an error. -/
theorem scanLines_short_long (first long : GoString) (rest : List GoString)
    (hfirst : ¬ MaxScanTokenSize ≤ byteLen first) (hlong : MaxScanTokenSize ≤ byteLen long) :
    scanLines (first :: long :: rest) = ⟨[first], true⟩ := by
  rw [scanLines, if_neg hfirst, scanLines, if_pos hlong]

/-- The scan delivers the lines before the first line of 65536 bytes or more, and ends with
an error exactly when there is such a line. -/
theorem scanLines_eq (content : List GoString) :
    scanLines content =
      ⟨content.takeWhile (fun l => decide (byteLen l < 65536)),
        content.any (fun l => decide (65536 ≤ byteLen l))⟩ := by
  induction content with
  | nil => rfl
  | cons line rest ih =>
    rw [scanLines, ih]
    by_cases h : 65536 ≤ byteLen line
    · have h2 : ¬ byteLen line < 65536 := by omega
      rw [if_pos (by simpa [MaxScanTokenSize] using h)]
      simp [List.takeWhile_cons, h, h2]
    · have h2 : byteLen line < 65536 := by omega
      rw [if_neg (by simpa [MaxScanTokenSize] using h)]
      simp [List.takeWhile_cons, h, h2]

theorem wordColonRegexp_hasTwoGroups : wordColonRegexp.hasTwoGroups := by
  intro line submatches h
  simp only [wordColonRegexp, Option.map_eq_some'] at h
  obtain ⟨groups, _, rfl⟩ := h
  simp

/-! ## LoadTranscript: line numbers -/

/-- C4, as amended: for an input of `N` lines that is scanned without error and a parser
whose start-of-turn pattern is set with its two capture groups and whose non-dialogue
patterns are not nil, `LoadTranscript` returns, and the line numbers of its Turns,
concatenated in output order, are exactly `0, 1, ..., N-1`; in particular they increase
strictly inside every Turn and every line index belongs to exactly one Turn. -/
theorem LoadTranscript_lineNumbers_partition (s : ScriptParser) (re : Regexp)
    (input : Scanned) (hpat : s.actorDialoguePattern = some re) (hg : re.hasTwoGroups)
    (hskip : ∀ r ∈ s.nonDialogueRegexp, r ≠ none) (herr : input.err = false) :
    ∃ turns, LoadTranscript.turns s input = Except.ok turns ∧
      (turns.map Line.LineNumbers).flatten =
        (List.range input.lines.length).map (fun k : Nat => (k : Int)) ∧
      ∀ t ∈ turns, t.LineNumbers.Pairwise (fun a b => a < b) := by
  obtain ⟨st, hloop⟩ := loopFrom_total s re hpat hg hskip input.lines LoadState.init
  obtain ⟨_, _, ⟨tl, htl, _⟩, hflat0⟩ := loop_inv s input.lines st hloop
  have hflat : ((tl.map lineOfRaw).map Line.LineNumbers).flatten =
      (List.range input.lines.length).map (fun k : Nat => (k : Int)) := by
    rw [htl] at hflat0
    simp only [List.map_cons, List.flatten_cons, RawLine.zero, List.nil_append] at hflat0
    rw [← hflat0, List.map_map]
    rfl
  have hturns := turns_of_loop s input st tl hloop htl
  rw [herr] at hturns
  refine ⟨tl.map lineOfRaw, hturns, hflat, ?_⟩
  have hsorted : (((tl.map lineOfRaw).map Line.LineNumbers).flatten).Pairwise
      (fun a b => a < b) := by
    rw [hflat]
    exact List.Pairwise.map _ (fun a b hab => Int.ofNat_lt.2 hab) (List.pairwise_lt_range _)
  intro t ht
  exact (List.pairwise_flatten.1 hsorted).1 _ (List.mem_map.2 ⟨t, ht, rfl⟩)

/-- C4, an instance: four lines, the third a non-dialogue line, give three Turns with the
line numbers `[0, 1]`, `[2]` and `[3]`. -/
theorem LoadTranscript_lineNumbers_partition_witness :
    LoadTranscript.turns ⟨some wordColonRegexp, true, [some dashRegexp]⟩
      (scanLines ["ALICE: hi".toList, "still alice".toList, "-- pause".toList,
        "BOB: hello".toList]) =
      Except.ok [⟨"ALICE".toList, [0, 1], "hi\nstill alice".toList⟩,
        ⟨NON_ACTOR, [2], "-- pause".toList⟩, ⟨"BOB".toList, [3], "hello".toList⟩] ∧
    ∃ turns, LoadTranscript.turns ⟨some wordColonRegexp, true, [some dashRegexp]⟩
        (scanLines ["ALICE: hi".toList, "still alice".toList, "-- pause".toList,
          "BOB: hello".toList]) = Except.ok turns ∧
      (turns.map Line.LineNumbers).flatten =
        (List.range (scanLines ["ALICE: hi".toList, "still alice".toList,
          "-- pause".toList, "BOB: hello".toList]).lines.length).map
            (fun k : Nat => (k : Int)) ∧
      ∀ t ∈ turns, t.LineNumbers.Pairwise (fun a b => a < b) :=
  ⟨by decide,
    LoadTranscript_lineNumbers_partition ⟨some wordColonRegexp, true, [some dashRegexp]⟩
      wordColonRegexp _ rfl wordColonRegexp_hasTwoGroups (by simp) (by decide)⟩

/-- C4, the claim as stated fails: a three-line input whose second line has 65536 bytes
ends the scan with an error; a parser whose start-of-turn pattern was never set panics at
its first line; and a parser with a nil non-dialogue pattern panics at a continuation line.
In all three cases `LoadTranscript` panics and no Turn is emitted. -/
theorem LoadTranscript_lineNumbers_no_turns :
    LoadTranscript.turns ⟨some wordColonRegexp, true, []⟩
      (scanLines ["ALICE: hi".toList, List.replicate 65536 'x', "BOB: hello".toList]) =
      Except.error Panic.scanFailed ∧
    LoadTranscript.turns ⟨none, true, []⟩ (scanLines ["ALICE: hi".toList]) =
      Except.error Panic.nilPointer ∧
    LoadTranscript.turns ⟨some wordColonRegexp, true, [none]⟩
      (scanLines ["ALICE: hi".toList, "still alice".toList]) =
      Except.error Panic.nilPointer := by
  refine ⟨?_, by decide, by decide⟩
  rw [scanLines_short_long _ _ _ (by decide) (by rw [byteLen_replicate]; decide)]
  decide

/-! ## LoadTranscript: the number of Turns -/

theorem loop_append_of_ok (s : ScriptParser) (ls : List GoString) (l : GoString)
    (st : LoadState) (h : LoadTranscript.loop s ls = Except.ok st) :
    LoadTranscript.loop s (ls ++ [l]) = LoadTranscript.step s st l := by
  unfold LoadTranscript.loop at h ⊢
  rw [loopFrom_append, h]
  exact loopFrom_singleton s st l

/-- An iteration adds one record exactly when the line starts a new Turn. -/
theorem step_records_length (s : ScriptParser) (re : Regexp)
    (hpat : s.actorDialoguePattern = some re) (hg : re.hasTwoGroups)
    (hskip : ∀ r ∈ s.nonDialogueRegexp, r ≠ none)
    (st next : LoadState) (line : GoString) (i : Nat)
    (hi : st.prevLine.LineNumbers = [] ↔ i = 0)
    (h : LoadTranscript.step s st line = Except.ok next) :
    next.records.length =
      st.records.length + (if startsNewTurn re s i line = true then 1 else 0) := by
  have hempty : st.prevLine.LineNumbers.isEmpty = decide (i = 0) := by
    by_cases h0 : i = 0
    · simp [h0, hi.2 h0]
    · have : st.prevLine.LineNumbers ≠ [] := fun h => h0 (hi.1 h)
      simp [h0, this]
  cases hc : re.captures line with
  | some p =>
    obtain ⟨actor, text⟩ := p
    have hm : re.MatchString line = true := by
      rw [← captures_isSome re hg, hc]; rfl
    rw [step_match s re hpat hg st line actor text hc] at h
    injection h with h
    subst h
    simp [LoadState.records, startsNewTurn, hm]
  | none =>
    have hm : re.MatchString line = false := by
      rw [← captures_isSome re hg, hc]; rfl
    have hu := startsUnattributed_eq s st line hskip
    rw [hempty] at hu
    cases hb : (decide (i = 0) || !s.isMultiLineDialogue
        || matchesNonDialogue s.nonDialogueRegexp line) with
    | true =>
      rw [hb] at hu
      rw [step_new s re hpat hg st line hc hu] at h
      injection h with h
      subst h
      have hnew : startsNewTurn re s i line = true := by
        simp only [startsNewTurn, hm, Bool.false_or]
        exact hb
      simp [LoadState.records, hnew]
    | false =>
      rw [hb] at hu
      rw [step_merge s re hpat hg st line hc hu] at h
      injection h with h
      subst h
      have hnew : startsNewTurn re s i line = false := by
        simp only [startsNewTurn, hm, Bool.false_or]
        exact hb
      simp [LoadState.records, hnew]

theorem loop_records_length (s : ScriptParser) (re : Regexp)
    (hpat : s.actorDialoguePattern = some re) (hg : re.hasTwoGroups)
    (hskip : ∀ r ∈ s.nonDialogueRegexp, r ≠ none) (lines : List GoString) :
    ∀ st, LoadTranscript.loop s lines = Except.ok st →
      st.records.length =
        (lines.enum.filter (fun il => startsNewTurn re s il.1 il.2)).length + 1 := by
  induction lines using List.reverseRecOn with
  | nil =>
    intro st h
    simp only [LoadTranscript.loop, LoadTranscript.loopFrom] at h
    injection h with h2
    subst h2
    rfl
  | append_singleton ls l ih =>
    intro final h
    obtain ⟨st, hst, hstep⟩ := loop_append_ok s ls l final h
    have hi : st.prevLine.LineNumbers = [] ↔ ls.length = 0 := by
      rw [(loop_inv s ls st hst).2.1, List.length_eq_zero]
    rw [step_records_length s re hpat hg hskip st final l ls.length hi hstep, ih st hst,
      List.enum_append, List.filter_append, List.length_append, List.enumFrom_singleton]
    by_cases hn : startsNewTurn re s ls.length l = true
    · simp [List.filter_cons, hn]
    · simp [List.filter_cons, hn]

/-- C5, as amended: for an input that is scanned without error and a parser whose
start-of-turn pattern is set with its two capture groups and whose non-dialogue patterns are
not nil, `LoadTranscript` returns, and the number of its Turns is the number of input lines
that start a new Turn by rule 1 or rule 2: the indices `i` whose line matches the
start-of-turn pattern, or `i = 0`, or multi-line turns are disabled, or the line matches a
non-dialogue pattern.  Continuation lines and the initial sentinel are not counted. -/
theorem LoadTranscript_turn_count (s : ScriptParser) (re : Regexp) (input : Scanned)
    (hpat : s.actorDialoguePattern = some re) (hg : re.hasTwoGroups)
    (hskip : ∀ r ∈ s.nonDialogueRegexp, r ≠ none) (herr : input.err = false) :
    ∃ turns, LoadTranscript.turns s input = Except.ok turns ∧
      turns.length =
        (input.lines.enum.filter (fun il =>
          re.MatchString il.2 || decide (il.1 = 0) || !s.isMultiLineDialogue
            || s.nonDialogueRegexp.any (fun skipRegexp =>
                match skipRegexp with
                | some skip => skip.MatchString il.2
                | none => false))).length := by
  obtain ⟨st, hloop⟩ := loopFrom_total s re hpat hg hskip input.lines LoadState.init
  obtain ⟨_, _, ⟨tl, htl, _⟩, _⟩ := loop_inv s input.lines st hloop
  have hturns := turns_of_loop s input st tl hloop htl
  rw [herr] at hturns
  refine ⟨tl.map lineOfRaw, hturns, ?_⟩
  have h := loop_records_length s re hpat hg hskip input.lines st hloop
  rw [htl, List.length_cons] at h
  rw [List.length_map]
  have h2 := Nat.succ.inj h
  rw [h2]
  rfl

/-- C5, an instance: of the four lines `ALICE: hi`, `still alice`, `-- pause`, `BOB: hello`
the first and the last match the start-of-turn pattern and the third matches the
non-dialogue pattern `^-- `; three Turns are emitted. -/
theorem LoadTranscript_turn_count_witness :
    LoadTranscript.turns ⟨some wordColonRegexp, true, [some dashRegexp]⟩
      (scanLines ["ALICE: hi".toList, "still alice".toList, "-- pause".toList,
        "BOB: hello".toList]) =
      Except.ok [⟨"ALICE".toList, [0, 1], "hi\nstill alice".toList⟩,
        ⟨NON_ACTOR, [2], "-- pause".toList⟩, ⟨"BOB".toList, [3], "hello".toList⟩] ∧
    ((scanLines ["ALICE: hi".toList, "still alice".toList, "-- pause".toList,
        "BOB: hello".toList]).lines.enum.filter (fun il =>
          wordColonRegexp.MatchString il.2 || decide (il.1 = 0) || !true
            || [some dashRegexp].any (fun skipRegexp =>
                match skipRegexp with
                | some skip => skip.MatchString il.2
                | none => false))).length = 3 ∧
    ∃ turns, LoadTranscript.turns ⟨some wordColonRegexp, true, [some dashRegexp]⟩
        (scanLines ["ALICE: hi".toList, "still alice".toList, "-- pause".toList,
          "BOB: hello".toList]) = Except.ok turns ∧
      turns.length =
        ((scanLines ["ALICE: hi".toList, "still alice".toList, "-- pause".toList,
          "BOB: hello".toList]).lines.enum.filter (fun il =>
            wordColonRegexp.MatchString il.2 || decide (il.1 = 0) || !true
              || [some dashRegexp].any (fun skipRegexp =>
                  match skipRegexp with
                  | some skip => skip.MatchString il.2
                  | none => false))).length :=
  ⟨by decide, by decide,
    LoadTranscript_turn_count ⟨some wordColonRegexp, true, [some dashRegexp]⟩
      wordColonRegexp _ rfl wordColonRegexp_hasTwoGroups (by simp) (by decide)⟩

/-- C5, the claim as stated fails: when the second of two lines has 65536 bytes the scan
ends with an error and `LoadTranscript` panics, emitting no Turn although line 0 starts a
new Turn; and a parser with a nil non-dialogue pattern panics at a continuation line. -/
theorem LoadTranscript_turn_count_no_turns :
    LoadTranscript.turns ⟨some wordColonRegexp, true, [some dashRegexp]⟩
      (scanLines ["BOB: hello".toList, List.replicate 65536 'y']) =
      Except.error Panic.scanFailed ∧
    LoadTranscript.turns ⟨some wordColonRegexp, true, [none]⟩
      (scanLines ["BOB: hello".toList, "and more".toList]) =
      Except.error Panic.nilPointer := by
  refine ⟨?_, by decide⟩
  rw [scanLines_short_long _ _ _ (by decide) (by rw [byteLen_replicate]; decide)]
  decide

/-! ## LoadTranscript: multi-line turns disabled -/

/-- With multi-line turns disabled every iteration returns and adds the Turn of the current
line. -/
theorem step_records_single (s : ScriptParser) (re : Regexp)
    (hpat : s.actorDialoguePattern = some re) (hg : re.hasTwoGroups)
    (hm : s.isMultiLineDialogue = false)
    (st : LoadState) (line : GoString) (i : Nat) (hi : st.currentLineNumber + 1 = (i : Int)) :
    ∃ next, LoadTranscript.step s st line = Except.ok next ∧
      next.records.map lineOfRaw =
        st.records.map lineOfRaw ++ [singleLineTurn re.captures i line] := by
  cases hc : re.captures line with
  | some p =>
    obtain ⟨actor, text⟩ := p
    refine ⟨_, step_match s re hpat hg st line actor text hc, ?_⟩
    simp [LoadState.records, singleLineTurn, hc, lineOfRaw, hi]
  | none =>
    refine ⟨_, step_new s re hpat hg st line hc (startsUnattributed_single s st line hm), ?_⟩
    simp [LoadState.records, singleLineTurn, hc, lineOfRaw, hi]

theorem loop_records_single (s : ScriptParser) (re : Regexp)
    (hpat : s.actorDialoguePattern = some re) (hg : re.hasTwoGroups)
    (hm : s.isMultiLineDialogue = false) (lines : List GoString) :
    ∃ st, LoadTranscript.loop s lines = Except.ok st ∧
      st.records.map lineOfRaw =
        lineOfRaw RawLine.zero ::
          lines.enum.map (fun il => singleLineTurn re.captures il.1 il.2) := by
  induction lines using List.reverseRecOn with
  | nil => exact ⟨LoadState.init, rfl, rfl⟩
  | append_singleton ls l ih =>
    obtain ⟨st, hst, hrec⟩ := ih
    have hi : st.currentLineNumber + 1 = (ls.length : Int) := by
      rw [(loop_inv s ls st hst).1]; omega
    obtain ⟨next, hnext, hnrec⟩ := step_records_single s re hpat hg hm st l ls.length hi
    refine ⟨next, by rw [loop_append_of_ok s ls l st hst, hnext], ?_⟩
    rw [hnrec, hrec, List.enum_append, List.map_append, List.enumFrom_singleton]
    rfl

/-- C6, as amended: with multi-line turns disabled, for an input that is scanned without
error and a parser whose start-of-turn pattern is set with its two capture groups,
`LoadTranscript` returns one Turn per input line, in order, the `i`-th with
`LineNumbers = [i]`: the captured speaker and captured text if line `i` matches the
start-of-turn pattern, and otherwise the speaker `NON_ACTOR` and the line verbatim. -/
theorem LoadTranscript_single_line_turns (s : ScriptParser) (re : Regexp) (input : Scanned)
    (hpat : s.actorDialoguePattern = some re) (hg : re.hasTwoGroups)
    (hm : s.isMultiLineDialogue = false) (herr : input.err = false) :
    LoadTranscript.turns s input =
      Except.ok (input.lines.enum.map (fun il =>
        match re.captures il.2 with
        | some (speaker, text) => (⟨speaker, [(il.1 : Int)], text⟩ : Line)
        | none => ⟨NON_ACTOR, [(il.1 : Int)], il.2⟩)) ∧
    ∀ line, (re.captures line).isSome = re.MatchString line := by
  refine ⟨?_, captures_isSome re hg⟩
  obtain ⟨st, hloop, hrec⟩ := loop_records_single s re hpat hg hm input.lines
  obtain ⟨_, _, ⟨tl, htl, _⟩, _⟩ := loop_inv s input.lines st hloop
  rw [htl, List.map_cons, List.cons.injEq] at hrec
  rw [turns_of_loop s input st tl hloop htl, herr, hrec.2]
  rfl

/-- C6, the example of the spec: with the pattern `^(?P<Actor>\w+): (?P<Line>.*)` and
multi-line turns disabled, the lines `ALICE: hi`, `BOB: hello`, `not a match line` give the
Turns `(ALICE, "hi")`, `(BOB, "hello")` and `(NON_ACTOR, "not a match line")`. -/
theorem LoadTranscript_single_line_turns_witness :
    (scanLines ["ALICE: hi".toList, "BOB: hello".toList, "not a match line".toList]).err
      = false ∧
    LoadTranscript.turns ⟨some wordColonRegexp, false, []⟩
      (scanLines ["ALICE: hi".toList, "BOB: hello".toList, "not a match line".toList]) =
      Except.ok [⟨"ALICE".toList, [0], "hi".toList⟩, ⟨"BOB".toList, [1], "hello".toList⟩,
        ⟨NON_ACTOR, [2], "not a match line".toList⟩] :=
  ⟨by decide,
    (LoadTranscript_single_line_turns ⟨some wordColonRegexp, false, []⟩ wordColonRegexp
      (scanLines ["ALICE: hi".toList, "BOB: hello".toList, "not a match line".toList])
      rfl wordColonRegexp_hasTwoGroups rfl (by decide)).1.trans (by decide)⟩

/-- C6, the claim as stated fails: with multi-line turns disabled, a three-line input whose
second line has 65536 bytes ends the scan with an error, and `LoadTranscript` panics
instead of emitting three Turns; so does a parser whose start-of-turn pattern was never
set. -/
theorem LoadTranscript_single_line_no_turns :
    LoadTranscript.turns ⟨some wordColonRegexp, false, []⟩
      (scanLines ["ALICE: hi".toList, List.replicate 65536 'z', "not a match line".toList]) =
      Except.error Panic.scanFailed ∧
    LoadTranscript.turns ⟨none, false, []⟩
      (scanLines ["ALICE: hi".toList, "BOB: hello".toList, "not a match line".toList]) =
      Except.error Panic.nilPointer := by
  refine ⟨?_, by decide⟩
  rw [scanLines_short_long _ _ _ (by decide) (by rw [byteLen_replicate]; decide)]
  decide

/-! ## LoadTranscript: multi-line turns enabled -/

/-- With multi-line turns enabled and no non-dialogue pattern, running the loop from a state
with a pending Turn returns; it extends that Turn by the lines up to the next matching line
and then emits one Turn per matching line. -/
theorem loopFrom_multi (s : ScriptParser) (re : Regexp)
    (hpat : s.actorDialoguePattern = some re) (hg : re.hasTwoGroups)
    (hm : s.isMultiLineDialogue = true) (hn : s.nonDialogueRegexp = []) :
    ∀ (lines : List GoString) (st : LoadState) (n : Nat),
      st.prevLine.LineNumbers ≠ [] → st.currentLineNumber + 1 = (n : Int) →
      ∃ final, LoadTranscript.loopFrom s st lines = Except.ok final ∧
        final.records.map lineOfRaw =
          st.rawScript.map lineOfRaw ++
            (⟨st.prevLine.Actor,
              st.prevLine.LineNumbers ++
                (List.range' n (lines.takeWhile
                  (fun l => (re.captures l).isNone)).length).map (fun k => (k : Int)),
              st.prevLine.Line ++
                ((lines.takeWhile (fun l => (re.captures l).isNone)).map
                  (fun l => '\n' :: l)).flatten⟩ : Line)
            :: turnsBySpec re.captures n lines := by
  intro lines
  induction lines with
  | nil =>
    intro st n _ _
    exact ⟨st, rfl, by simp [LoadState.records, lineOfRaw, turnsBySpec]⟩
  | cons l rest ih =>
    intro st n hne hcur
    cases hp : re.captures l with
    | some p =>
      obtain ⟨actor, text⟩ := p
      have hstep := step_match s re hpat hg st l actor text hp
      obtain ⟨final, hfinal, hrec⟩ := ih
        ⟨st.rawScript ++ [st.prevLine], ⟨actor, text, [st.currentLineNumber + 1]⟩,
          st.currentLineNumber + 1⟩ (n + 1) (by simp) (by simp [hcur])
      refine ⟨final, by simp only [LoadTranscript.loopFrom, hstep, hfinal], ?_⟩
      rw [hrec]
      simp [List.takeWhile_cons, hp, turnsBySpec, lineOfRaw, hcur, List.range'_succ]
    | none =>
      have hu : LoadTranscript.startsUnattributed s st l = Except.ok false := by
        simp [LoadTranscript.startsUnattributed, hm, hn, isNonDialogue, hne]
      have hstep := step_merge s re hpat hg st l hp hu
      obtain ⟨final, hfinal, hrec⟩ := ih
        ⟨st.rawScript,
          ⟨st.prevLine.Actor, st.prevLine.Line ++ ('\n' :: l),
            st.prevLine.LineNumbers ++ [st.currentLineNumber + 1]⟩,
          st.currentLineNumber + 1⟩ (n + 1) (by simp) (by simp [hcur])
      refine ⟨final, by simp only [LoadTranscript.loopFrom, hstep, hfinal], ?_⟩
      rw [hrec]
      simp [List.takeWhile_cons, hp, turnsBySpec, hcur, List.range'_succ]

theorem turnsBySpec_length (pattern : DialoguePattern) (lines : List GoString) :
    ∀ idx : Nat, (turnsBySpec pattern idx lines).length =
      (lines.filter (fun l => (pattern l).isSome)).length := by
  induction lines with
  | nil => intro idx; rfl
  | cons l rest ih =>
    intro idx
    cases hp : pattern l with
    | some p => simp [turnsBySpec, hp, List.filter_cons, ih]
    | none => simp [turnsBySpec, hp, List.filter_cons, ih]

/-- C7, as amended: with multi-line turns enabled and no non-dialogue pattern, for an input
that is scanned without error and whose first line matches the start-of-turn pattern, and a
parser whose start-of-turn pattern is set with its two capture groups, `LoadTranscript`
returns exactly one Turn per matching line, in order: the captured speaker, the captured
text followed by a line break and the line for each following non-matching line up to the
next matching line, and the line numbers of that contiguous range. -/
theorem LoadTranscript_multi_line_turns (s : ScriptParser) (re : Regexp) (input : Scanned)
    (hpat : s.actorDialoguePattern = some re) (hg : re.hasTwoGroups)
    (hm : s.isMultiLineDialogue = true) (hn : s.nonDialogueRegexp = [])
    (herr : input.err = false)
    (hfirst : ∃ first rest, input.lines = first :: rest ∧ re.MatchString first = true) :
    LoadTranscript.turns s input = Except.ok (turnsBySpec re.captures 0 input.lines) ∧
    (turnsBySpec re.captures 0 input.lines).length =
      (input.lines.filter (fun l => re.MatchString l)).length ∧
    ∀ line, (re.captures line).isSome = re.MatchString line := by
  refine ⟨?_, ?_, captures_isSome re hg⟩
  · obtain ⟨first, rest, hlines, hf⟩ := hfirst
    rw [← captures_isSome re hg] at hf
    obtain ⟨⟨actor, text⟩, hp⟩ := Option.isSome_iff_exists.1 hf
    have hstep := step_match s re hpat hg LoadState.init first actor text hp
    obtain ⟨final, hfinal, hrec⟩ := loopFrom_multi s re hpat hg hm hn rest
      ⟨LoadState.init.rawScript ++ [LoadState.init.prevLine],
        ⟨actor, text, [LoadState.init.currentLineNumber + 1]⟩,
        LoadState.init.currentLineNumber + 1⟩ 1 (by simp) (by simp [LoadState.init])
    have hloop : LoadTranscript.loop s input.lines = Except.ok final := by
      rw [hlines]
      simp only [LoadTranscript.loop, LoadTranscript.loopFrom, hstep, hfinal]
    obtain ⟨_, _, ⟨tl, htl, _⟩, _⟩ := loop_inv s input.lines final hloop
    have h : final.records.map lineOfRaw =
        lineOfRaw RawLine.zero :: turnsBySpec re.captures 0 input.lines := by
      rw [hrec, hlines]
      simp [LoadState.init, turnsBySpec, hp, List.range'_succ]
    rw [htl, List.map_cons, List.cons.injEq] at h
    rw [turns_of_loop s input final tl hloop htl, herr, h.2]
    rfl
  · rw [turnsBySpec_length]
    congr 1
    apply List.filter_congr
    intro l _
    exact captures_isSome re hg l

/-- C7, the example of the spec: with the pattern `^(?P<Actor>\w+): (?P<Line>.*)`,
multi-line turns enabled and no non-dialogue pattern, the lines `ALICE: hi`, `still alice`,
`BOB: hello` give the Turns `(ALICE, "hi\nstill alice")` with lines `[0, 1]` and
`(BOB, "hello")` with lines `[2]`. -/
theorem LoadTranscript_multi_line_turns_witness :
    ((scanLines ["ALICE: hi".toList, "still alice".toList, "BOB: hello".toList]).err
        = false ∧
      wordColonRegexp.MatchString "ALICE: hi".toList = true) ∧
    LoadTranscript.turns ⟨some wordColonRegexp, true, []⟩
      (scanLines ["ALICE: hi".toList, "still alice".toList, "BOB: hello".toList]) =
      Except.ok [⟨"ALICE".toList, [0, 1], "hi\nstill alice".toList⟩,
        ⟨"BOB".toList, [2], "hello".toList⟩] :=
  ⟨⟨by decide, by decide⟩,
    (LoadTranscript_multi_line_turns ⟨some wordColonRegexp, true, []⟩ wordColonRegexp
      (scanLines ["ALICE: hi".toList, "still alice".toList, "BOB: hello".toList])
      rfl wordColonRegexp_hasTwoGroups rfl rfl (by decide)
      ⟨"ALICE: hi".toList, ["still alice".toList, "BOB: hello".toList], by decide,
        by decide⟩).1.trans (by decide)⟩

/-- C7, the claim as stated fails: with multi-line turns enabled and no non-dialogue
pattern, the input `ALICE: hi` followed by a line of 65536 bytes ends the scan with an
error, and `LoadTranscript` panics instead of emitting the Turn of ALICE; so does a parser
whose start-of-turn pattern was never set. -/
theorem LoadTranscript_multi_line_no_turns :
    LoadTranscript.turns ⟨some wordColonRegexp, true, []⟩
      (scanLines ["ALICE: hi".toList, List.replicate 65536 'a']) =
      Except.error Panic.scanFailed ∧
    LoadTranscript.turns ⟨none, true, []⟩
      (scanLines ["ALICE: hi".toList, "still alice".toList, "BOB: hello".toList]) =
      Except.error Panic.nilPointer := by
  refine ⟨?_, by decide⟩
  rw [scanLines_short_long _ _ _ (by decide) (by rw [byteLen_replicate]; decide)]
  decide

/-! ## LoadTranscript: non-dialogue patterns -/

theorem step_single_independent (pattern : Option Regexp) (skip1 skip2 : List (Option Regexp))
    (st : LoadState) (line : GoString) :
    LoadTranscript.step ⟨pattern, false, skip1⟩ st line =
      LoadTranscript.step ⟨pattern, false, skip2⟩ st line := by
  simp [LoadTranscript.step, LoadTranscript.startsUnattributed]

theorem loopFrom_single_independent (pattern : Option Regexp)
    (skip1 skip2 : List (Option Regexp)) (lines : List GoString) :
    ∀ st : LoadState, LoadTranscript.loopFrom ⟨pattern, false, skip1⟩ st lines =
      LoadTranscript.loopFrom ⟨pattern, false, skip2⟩ st lines := by
  induction lines with
  | nil => intro st; rfl
  | cons l rest ih =>
    intro st
    simp only [LoadTranscript.loopFrom, step_single_independent pattern skip1 skip2]
    cases LoadTranscript.step ⟨pattern, false, skip2⟩ st l with
    | error e => rfl
    | ok next => exact ih next

/-- C16: with multi-line turns disabled the result of `LoadTranscript` (its Script or its
panic), and so the sequence of emitted Turns, is the same for every two lists of
non-dialogue patterns, for every start-of-turn pattern and every scanned input. -/
theorem LoadTranscript_skip_patterns_irrelevant (pattern : Option Regexp)
    (skip1 skip2 : List (Option Regexp)) (input : Scanned) :
    LoadTranscript ⟨pattern, false, skip1⟩ input = LoadTranscript ⟨pattern, false, skip2⟩ input ∧
    LoadTranscript.turns ⟨pattern, false, skip1⟩ input =
      LoadTranscript.turns ⟨pattern, false, skip2⟩ input := by
  have h : LoadTranscript ⟨pattern, false, skip1⟩ input =
      LoadTranscript ⟨pattern, false, skip2⟩ input := by
    simp only [LoadTranscript, LoadTranscript.rawLines, LoadTranscript.loop,
      loopFrom_single_independent pattern skip1 skip2]
  exact ⟨h, by simp only [LoadTranscript.turns, h]⟩

/-! ## LoadTranscript: the sentinel -/

/-- C19: the sentinel is never emitted.  Whenever `LoadTranscript` returns, every emitted
Turn has a non-empty `LineNumbers`; the slice `rawScript[1:]` never fails, after any loop
that did not panic, so `LoadTranscript` never panics at it; for the input of zero lines,
scanned without error, no Turn is emitted, whatever the parser; and for an input scanned
without error and a parser whose start-of-turn pattern is set with its two capture groups
and whose non-dialogue patterns are not nil, `LoadTranscript` does return. -/
theorem LoadTranscript_sentinel_not_emitted :
    (∀ (s : ScriptParser) (input : Scanned) (turns : List Line),
      LoadTranscript.turns s input = Except.ok turns → ∀ t ∈ turns, t.LineNumbers ≠ []) ∧
    (∀ (s : ScriptParser) (lines : List GoString) (st : LoadState),
      LoadTranscript.loop s lines = Except.ok st →
        ∃ rawScript, goSliceFrom st.records 1 = Except.ok rawScript) ∧
    (∀ (s : ScriptParser) (input : Scanned),
      LoadTranscript.rawLines s input ≠ Except.error Panic.sliceBounds ∧
      LoadTranscript.turns s input ≠ Except.error Panic.sliceBounds) ∧
    (∀ s : ScriptParser, LoadTranscript.turns s ⟨[], false⟩ = Except.ok []) ∧
    (∀ (s : ScriptParser) (re : Regexp) (input : Scanned),
      s.actorDialoguePattern = some re → re.hasTwoGroups →
      (∀ r ∈ s.nonDialogueRegexp, r ≠ none) → input.err = false →
      ∃ turns, LoadTranscript.turns s input = Except.ok turns ∧
        ∀ t ∈ turns, t.LineNumbers ≠ []) := by
  have hnonempty : ∀ (s : ScriptParser) (input : Scanned) (turns : List Line),
      LoadTranscript.turns s input = Except.ok turns → ∀ t ∈ turns, t.LineNumbers ≠ [] := by
    intro s input turns h t ht
    obtain ⟨st, tl, hloop, htl, rfl, _⟩ := turns_ok_inv s input turns h
    obtain ⟨_, _, ⟨tl2, htl2, hall⟩, _⟩ := loop_inv s input.lines st hloop
    rw [htl, List.cons.injEq] at htl2
    obtain ⟨r, hr, rfl⟩ := List.mem_map.1 ht
    exact hall r (by rw [← htl2.2]; exact hr)
  have hturns : ∀ (s : ScriptParser) (input : Scanned),
      LoadTranscript.turns s input ≠ Except.error Panic.sliceBounds := by
    intro s input h
    rcases turns_error s input _ h with h1 | h1 | h1 <;> cases h1
  refine ⟨hnonempty, ?_, ?_, ?_, ?_⟩
  · intro s lines st hloop
    obtain ⟨_, _, ⟨tl, htl, _⟩, _⟩ := loop_inv s lines st hloop
    exact ⟨tl, by rw [htl, goSliceFrom_one_cons]⟩
  · intro s input
    refine ⟨?_, hturns s input⟩
    intro h
    apply hturns s input
    simp only [LoadTranscript.turns, LoadTranscript, h, Except.map]
  · intro s
    have h := turns_of_loop s ⟨[], false⟩ LoadState.init [] rfl rfl
    simpa using h
  · intro s re input hpat hg hskip herr
    obtain ⟨st, hloop⟩ := loopFrom_total s re hpat hg hskip input.lines LoadState.init
    obtain ⟨_, _, ⟨tl, htl, _⟩, _⟩ := loop_inv s input.lines st hloop
    have h := turns_of_loop s input st tl hloop htl
    rw [herr] at h
    exact ⟨tl.map lineOfRaw, h, hnonempty s input _ h⟩

/-! ## LoadTranscript: non-dialogue lines -/

/-- A record that starts at line `i` without speaker and with the text of `line` stays
among the records in the next iteration, possibly with more lines merged into it. -/
theorem step_keeps_unattributed (s : ScriptParser) (st next : LoadState) (l line : GoString)
    (i : Int) (hstep : LoadTranscript.step s st l = Except.ok next)
    (h : ∃ r ∈ st.records, r.Actor = NON_ACTOR ∧ r.LineNumbers.head? = some i ∧
      line <+: r.Line) :
    ∃ r ∈ next.records, r.Actor = NON_ACTOR ∧
      r.LineNumbers.head? = some i ∧ line <+: r.Line := by
  obtain ⟨r, hr, ha, hn, hl⟩ := h
  rcases step_ok_cases s st next l hstep with ⟨new, _, rfl⟩ | ⟨_, rfl⟩
  · refine ⟨r, ?_, ha, hn, hl⟩
    simp only [LoadState.records] at hr ⊢
    exact List.mem_append_left _ hr
  · simp only [LoadState.records] at hr ⊢
    rcases List.mem_append.1 hr with hr | hr
    · exact ⟨r, List.mem_append_left _ hr, ha, hn, hl⟩
    · rw [List.mem_singleton] at hr
      subst hr
      refine ⟨_, List.mem_append_right _ (List.mem_singleton.2 rfl), ha, ?_, ?_⟩
      · simp only [List.head?_append, hn]
        rfl
      · exact List.IsPrefix.trans hl (List.prefix_append _ _)

theorem loopFrom_keeps_unattributed (s : ScriptParser) (line : GoString) (i : Int) :
    ∀ (rest : List GoString) (st final : LoadState),
      LoadTranscript.loopFrom s st rest = Except.ok final →
      (∃ r ∈ st.records, r.Actor = NON_ACTOR ∧ r.LineNumbers.head? = some i ∧
        line <+: r.Line) →
      ∃ r ∈ final.records, r.Actor = NON_ACTOR ∧
        r.LineNumbers.head? = some i ∧ line <+: r.Line := by
  intro rest
  induction rest with
  | nil =>
    intro st final hloop h
    simp only [LoadTranscript.loopFrom] at hloop
    injection hloop with h2
    rw [← h2]; exact h
  | cons l rest ih =>
    intro st final hloop h
    simp only [LoadTranscript.loopFrom] at hloop
    cases hstep : LoadTranscript.step s st l with
    | error e => rw [hstep] at hloop; cases hloop
    | ok next =>
      rw [hstep] at hloop
      exact ih next final hloop (step_keeps_unattributed s st next l line i hstep h)

theorem matchesNonDialogue_of_mem (skipRegexps : List (Option Regexp)) (skip : Regexp)
    (line : GoString) (hmem : some skip ∈ skipRegexps) (hm : skip.MatchString line = true) :
    matchesNonDialogue skipRegexps line = true := by
  simp only [matchesNonDialogue, List.any_eq_true]
  exact ⟨some skip, hmem, hm⟩

/-- C20, as amended: for an input that is scanned without error and a parser whose
start-of-turn pattern is set with its two capture groups and whose non-dialogue patterns are
not nil, an input line that does not match the start-of-turn pattern and matches one of the
non-dialogue patterns starts a new unattributed Turn: it is the first source line of an
emitted Turn whose speaker is `NON_ACTOR` and whose text begins with the line verbatim, and
it is not appended to the preceding Turn, since every Turn emitted before that one holds
only earlier lines, and every Turn after it only later lines.  This holds with multi-line
turns enabled, the case of the claim, and also with multi-line turns disabled. -/
theorem nonDialogue_line_starts_unattributed_turn (s : ScriptParser) (re : Regexp)
    (input : Scanned) (before : List GoString) (line : GoString) (after : List GoString)
    (hpat : s.actorDialoguePattern = some re) (hg : re.hasTwoGroups)
    (hskip : ∀ r ∈ s.nonDialogueRegexp, r ≠ none) (herr : input.err = false)
    (hlines : input.lines = before ++ line :: after)
    (hp : re.MatchString line = false)
    (hn : ∃ skip, some skip ∈ s.nonDialogueRegexp ∧ skip.MatchString line = true) :
    ∃ earlier t later, LoadTranscript.turns s input = Except.ok (earlier ++ t :: later) ∧
      t.Speaker = NON_ACTOR ∧
      t.LineNumbers.head? = some (before.length : Int) ∧ line <+: t.Dialogue ∧
      (∀ u ∈ earlier, ∀ k ∈ u.LineNumbers, k < (before.length : Int)) ∧
      (∀ u ∈ later, ∀ k ∈ u.LineNumbers, (before.length : Int) < k) := by
  obtain ⟨final, hloop⟩ := loopFrom_total s re hpat hg hskip input.lines LoadState.init
  obtain ⟨_, _, ⟨tl, htl, _⟩, hflat0⟩ := loop_inv s input.lines final hloop
  -- the loop up to the line, the iteration of the line, and the rest of the loop
  have hsplit := hloop
  rw [hlines, loopFrom_append] at hsplit
  cases hmid : LoadTranscript.loopFrom s LoadState.init before with
  | error e => rw [hmid] at hsplit; cases hsplit
  | ok mid =>
    rw [hmid] at hsplit
    simp only [LoadTranscript.loopFrom] at hsplit
    obtain ⟨skip, hmem, hmatch⟩ := hn
    have hc := captures_of_not_match re line hp
    have hu : LoadTranscript.startsUnattributed s mid line = Except.ok true := by
      rw [startsUnattributed_eq s mid line hskip,
        matchesNonDialogue_of_mem _ skip line hmem hmatch]
      simp
    have hstep := step_new s re hpat hg mid line hc hu
    have hcur : mid.currentLineNumber + 1 = (before.length : Int) := by
      rw [(loop_inv s before mid hmid).1]; omega
    rw [hcur] at hstep
    rw [hstep] at hsplit
    have hstart : ∃ r ∈ (⟨mid.rawScript ++ [mid.prevLine],
        ⟨NON_ACTOR, line, [(before.length : Int)]⟩, (before.length : Int)⟩ : LoadState).records,
        r.Actor = NON_ACTOR ∧ r.LineNumbers.head? = some (before.length : Int) ∧
          line <+: r.Line :=
      ⟨_, List.mem_append_right _ (List.mem_singleton.2 rfl), rfl, rfl, List.prefix_refl _⟩
    obtain ⟨r, hr, ha, hnum, hl⟩ :=
      loopFrom_keeps_unattributed s line _ after _ final hsplit hstart
    rw [htl] at hr
    have hrtl : r ∈ tl := by
      rcases List.mem_cons.1 hr with hr | hr
      · rw [hr] at hnum
        simp [RawLine.zero] at hnum
      · exact hr
    obtain ⟨a, b, hab⟩ := List.append_of_mem hrtl
    have hturns := turns_of_loop s input final tl hloop htl
    rw [herr, hab] at hturns
    simp only [Bool.false_eq_true, if_false, List.map_append, List.map_cons] at hturns
    have hmemr : (before.length : Int) ∈ r.LineNumbers := by
      cases hln : r.LineNumbers with
      | nil => rw [hln] at hnum; cases hnum
      | cons x xs =>
        rw [hln] at hnum
        simp only [List.head?_cons, Option.some.injEq] at hnum
        rw [hnum]; exact List.mem_cons_self _ _
    have hsorted : (((a.map RawLine.LineNumbers).flatten ++
        (r.LineNumbers ++ (b.map RawLine.LineNumbers).flatten))).Pairwise
        (fun x y => x < y) := by
      have hflat : (a.map RawLine.LineNumbers).flatten ++
          (r.LineNumbers ++ (b.map RawLine.LineNumbers).flatten) =
          (List.range input.lines.length).map (fun k : Nat => (k : Int)) := by
        rw [← hflat0, htl, hab]
        simp [RawLine.zero]
      rw [hflat]
      exact List.Pairwise.map _ (fun x y hxy => Int.ofNat_lt.2 hxy)
        (List.pairwise_lt_range _)
    rw [List.pairwise_append] at hsorted
    obtain ⟨_, hright, hcross⟩ := hsorted
    rw [List.pairwise_append] at hright
    refine ⟨a.map lineOfRaw, lineOfRaw r, b.map lineOfRaw, hturns, ha, hnum, hl, ?_, ?_⟩
    · intro u hu k hk
      obtain ⟨ru, hru, rfl⟩ := List.mem_map.1 hu
      exact hcross k (List.mem_flatten.2 ⟨_, List.mem_map.2 ⟨ru, hru, rfl⟩, hk⟩) _
        (List.mem_append_left _ hmemr)
    · intro u hu k hk
      obtain ⟨ru, hru, rfl⟩ := List.mem_map.1 hu
      exact hright.2.2 _ hmemr k (List.mem_flatten.2 ⟨_, List.mem_map.2 ⟨ru, hru, rfl⟩, hk⟩)

/-- C20, an instance: with the non-dialogue pattern `^-- ` the line `-- pause` between two
lines of ALICE starts the unattributed Turn `(NON_ACTOR, "-- pause\nagain")` at line 1; the
Turn before it holds line 0 only. -/
theorem nonDialogue_line_starts_unattributed_turn_witness :
    LoadTranscript.turns ⟨some wordColonRegexp, true, [some dashRegexp]⟩
      (scanLines ["ALICE: hi".toList, "-- pause".toList, "again".toList]) =
      Except.ok [⟨"ALICE".toList, [0], "hi".toList⟩,
        ⟨NON_ACTOR, [1, 2], "-- pause\nagain".toList⟩] ∧
    ∃ earlier t later,
      LoadTranscript.turns ⟨some wordColonRegexp, true, [some dashRegexp]⟩
        (scanLines ["ALICE: hi".toList, "-- pause".toList, "again".toList]) =
        Except.ok (earlier ++ t :: later) ∧
      t.Speaker = NON_ACTOR ∧
      t.LineNumbers.head? = some (["ALICE: hi".toList].length : Int) ∧
      "-- pause".toList <+: t.Dialogue ∧
      (∀ u ∈ earlier, ∀ k ∈ u.LineNumbers, k < (["ALICE: hi".toList].length : Int)) ∧
      (∀ u ∈ later, ∀ k ∈ u.LineNumbers, (["ALICE: hi".toList].length : Int) < k) :=
  ⟨by decide,
    nonDialogue_line_starts_unattributed_turn
      ⟨some wordColonRegexp, true, [some dashRegexp]⟩ wordColonRegexp
      (scanLines ["ALICE: hi".toList, "-- pause".toList, "again".toList])
      ["ALICE: hi".toList] "-- pause".toList ["again".toList]
      rfl wordColonRegexp_hasTwoGroups (by simp) (by decide) (by decide) (by decide)
      ⟨dashRegexp, List.mem_singleton.2 rfl, by decide⟩⟩

/-- C20, the claim as stated fails: with multi-line turns enabled and the non-dialogue
pattern `^(?P<Actor>\w+): (?P<Line>.*)`, the line `ALICE: hi` matches a non-dialogue
pattern, yet the only emitted Turn has the speaker `ALICE`, not `NON_ACTOR`, and the text
`hi`, which does not begin with the line.  Moreover no Turn at all is emitted for the
non-dialogue line `-- pause` when the scan ends with an error at a later line of 65536
bytes, when the start-of-turn pattern was never set, or when a nil non-dialogue pattern
comes first in the list. -/
theorem nonDialogue_line_matching_start_pattern :
    (wordColonRegexp.MatchString "ALICE: hi".toList = true ∧
      LoadTranscript.turns ⟨some wordColonRegexp, true, [some wordColonRegexp]⟩
        (scanLines ["ALICE: hi".toList]) = Except.ok [⟨"ALICE".toList, [0], "hi".toList⟩] ∧
      "ALICE".toList ≠ NON_ACTOR ∧
      "ALICE: hi".toList.isPrefixOf "hi".toList = false) ∧
    LoadTranscript.turns ⟨some wordColonRegexp, true, [some dashRegexp]⟩
      (scanLines ["-- pause".toList, List.replicate 65536 'p']) =
      Except.error Panic.scanFailed ∧
    LoadTranscript.turns ⟨none, true, [some dashRegexp]⟩
      (scanLines ["-- pause".toList]) = Except.error Panic.nilPointer ∧
    LoadTranscript.turns ⟨some wordColonRegexp, true, [none, some dashRegexp]⟩
      (scanLines ["ALICE: hi".toList, "-- pause".toList]) =
      Except.error Panic.nilPointer := by
  refine ⟨by decide, ?_, by decide, by decide⟩
  rw [scanLines_short_long _ _ _ (by decide) (by rw [byteLen_replicate]; decide)]
  decide

end Scriptparser
